import Mathlib

/-!
# deployadactyl: deployment info, artifact extractor, blue/green orchestrator

A shallow embedding of

* `structs/deployment_info.go` (`DeploymentInfo`, `HasEnvironmentVariables`),
* `artifetcher/extractor/extractor.go` (`Extractor.Unzip`, `Extractor.unzipFile`)
  over a small model of Go's `path` package and of the virtual filesystem the
  extractor writes to,
* the blue/green orchestrator `BlueGreen.Push`, whose implementation file is not
  part of the sources (only `bluegreen_test.go` is) and is modelled from the
  specification.

Definitions come first, theorems follow.
-/

namespace Deployadactyl

/-! ## structs/deployment_info.go -/

/-- A Go `map[string]string`: `none` is the nil map, `some kvs` a non-nil map
with the listed entries. -/
abbrev GoMap := Option (List (String × String))

/-- Go's `len(m)` for a map; the length of a nil map is 0. -/
def GoMap.len : GoMap → Nat
  | none => 0
  | some kvs => kvs.length

/-- DeploymentInfo is a collection of properties necessary for a deployment.
`Instances` is a `uint16`; `Data` is a `map[string]interface{}` whose values
are kept in their JSON text form. -/
structure DeploymentInfo where
  ArtifactURL : String
  Manifest : String
  Username : String
  Password : String
  Environment : String
  Org : String
  Space : String
  AppName : String
  UUID : String
  SkipSSL : Bool
  Instances : Nat
  Domain : String
  AppPath : String
  EnvironmentVariables : GoMap
  Data : GoMap
  deriving DecidableEq

/-- The method `func (info *DeploymentInfo) HasEnvironmentVariables() bool`:
`info.EnvironmentVariables != nil && len(info.EnvironmentVariables) > 0`. -/
def DeploymentInfo.HasEnvironmentVariables (info : DeploymentInfo) : Bool :=
  info.EnvironmentVariables.isSome && decide (GoMap.len info.EnvironmentVariables > 0)

/-! ## Go's `path` package, as used by the extractor -/

/-- A cleaned slash-separated path: whether it starts at the root `/`, and its
elements listed innermost first (so `a/b/c` has `rev = ["c", "b", "a"]`).
The relative path with no elements is `.`. A cleaned relative path may keep
leading `..` elements; they are the outermost, hence the last of `rev`. -/
structure FPath where
  rooted : Bool
  rev : List String
  deriving DecidableEq

/-- Cut a string at every `/`. -/
def Path.splitSlash : List Char → List (List Char)
  | [] => [[]]
  | c :: cs =>
    match Path.splitSlash cs with
    | [] => [[c]]
    | seg :: rest => if c = '/' then [] :: seg :: rest else (c :: seg) :: rest

/-- The elements of a path string between its slashes (some may be empty). -/
def Path.elements (s : String) : List String :=
  (Path.splitSlash s.data).map String.mk

/-- One step of `path.Clean`: empty and `.` elements are dropped, `..` removes
the element before it when there is one to remove, is dropped at the root and
is kept at the start of a relative path; any other element is appended. -/
def Path.step (rooted : Bool) (stack : List String) (elem : String) : List String :=
  if elem = "" ∨ elem = "." then stack
  else if elem = ".." then
    match stack with
    | [] => if rooted then [] else [".."]
    | top :: below => if top = ".." then ".." :: top :: below else below
  else elem :: stack

/-- Go's `path.Clean`. The empty string cleans to `.`. -/
def Path.Clean (s : String) : FPath :=
  let rooted := s.data.head? == some '/'
  ⟨rooted, (Path.elements s).foldl (Path.step rooted) []⟩

/-- Go's `path.Join` for two elements: empty elements are ignored, the others
are joined with a slash and the result is cleaned. (Go returns the empty string
when both are empty; it is identified with `.` here.) -/
def Path.Join (a b : String) : FPath :=
  Path.Clean (if a = "" then b else a ++ "/" ++ b)

/-- Go's `path.Dir` of a cleaned path: all but the last element. -/
def Path.Dir (p : FPath) : FPath :=
  ⟨p.rooted, p.rev.tail⟩

/-- The text of a cleaned path. -/
def FPath.render (p : FPath) : String :=
  if p.rooted then "/" ++ "/".intercalate p.rev.reverse
  else if p.rev = [] then "." else "/".intercalate p.rev.reverse

/-- The path `p` is `root` itself or lies beneath `root`: both start at the same
place, and `p` is `root` followed by further elements none of which is `..`
(a `..` after `root` would leave it again). -/
def FPath.within (root p : FPath) : Prop :=
  root.rooted = p.rooted ∧ root.rev <:+ p.rev ∧
    ".." ∉ p.rev.take (p.rev.length - root.rev.length)

instance (root p : FPath) : Decidable (FPath.within root p) := by
  unfold FPath.within; exact inferInstance

/-- A path string has no `..` element. -/
def Path.noDotDot (s : String) : Prop :=
  ".." ∉ Path.elements s

instance (s : String) : Decidable (Path.noDotDot s) := by
  unfold Path.noDotDot; exact inferInstance

/-! ## The virtual filesystem (`afero.Fs`) -/

/-- What a path names: a directory with its mode, or a regular file with its
mode and contents (a byte string). -/
inductive Node where
  | dir (mode : Nat)
  | file (mode : Nat) (data : String)
  deriving DecidableEq

/-- A filesystem maps cleaned paths to nodes. Its `umask` holds the permission
bits that are taken from every file and directory it creates; it takes them
from group and others only (022, 027, 077, ...), and it is 0 for a filesystem
kept in memory. -/
structure Fs where
  node : FPath → Option Node
  umask : Fin 64

/-- The filesystem with nothing in it and no umask. -/
def Fs.empty : Fs := ⟨fun _ => none, 0⟩

/-- The filesystem with nothing in it and the given umask. -/
def Fs.blank (umask : Fin 64) : Fs := ⟨fun _ => none, umask⟩

/-- The bits of a Go `FileMode` that creating or changing a file can set (Go's
`syscallMode`): the nine permission bits and the setuid (bit 23), setgid
(bit 22) and sticky (bit 20) bits. The type bits (directory, symlink, ...) are
dropped. -/
def chmodBits (mode : Nat) : Nat :=
  mode % 512 + (mode / 2 ^ 20 % 2) * 2 ^ 20 + (mode / 2 ^ 22 % 2) * 2 ^ 22
    + (mode / 2 ^ 23 % 2) * 2 ^ 23

/-- The mode a file or directory gets when the filesystem creates it with
`perm`: the settable bits of `perm`, less the bits of the umask. -/
def Fs.created (fs : Fs) (perm : Nat) : Nat :=
  chmodBits perm - (chmodBits perm &&& fs.umask.val)

/-- The root, the working directory (`.`) and its ancestors (`..`, `../..`)
always exist as directories; nothing is ever stored for them. -/
def FPath.isAnchor (p : FPath) : Bool :=
  p.rev.all (fun s => s == "..")

/-- Look a path up. -/
def Fs.stat (fs : Fs) (p : FPath) : Option Node :=
  if p.isAnchor then some (Node.dir 0o755) else fs.node p

/-- Store a node at a path. -/
def Fs.set (fs : Fs) (p : FPath) (n : Node) : Fs :=
  ⟨fun q => if q = p then some n else fs.node q, fs.umask⟩

/-- The recursion of `MkdirAll`, on the elements of the path innermost first:
an existing directory is success, an existing file an error; otherwise the
parent is made first and then the directory itself, created with `perm`. -/
def Fs.mkdirAllRev (perm : Nat) (rooted : Bool) : List String → Fs → Except String Fs
  | [], fs => Except.ok fs
  | s :: parent, fs =>
    match fs.stat ⟨rooted, s :: parent⟩ with
    | some (Node.dir _) => Except.ok fs
    | some (Node.file _ _) => Except.error "not a directory"
    | none =>
      match Fs.mkdirAllRev perm rooted parent fs with
      | Except.error err => Except.error err
      | Except.ok fs1 =>
        Except.ok (fs1.set ⟨rooted, s :: parent⟩ (Node.dir (fs1.created perm)))

/-- The call `FileSystem.MkdirAll(path, perm)`: creates the directory and every
missing ancestor with `perm`. -/
def Fs.MkdirAll (fs : Fs) (p : FPath) (perm : Nat) : Except String Fs :=
  Fs.mkdirAllRev perm p.rooted p.rev fs

/-- The call `FileSystem.OpenFile(path, os.O_WRONLY|os.O_CREATE|os.O_TRUNC, perm)`
(the handle is the path). A directory cannot be opened for writing; an existing
file is truncated and keeps its mode (`perm` is used only when the file is
created); a missing file is created empty, as a regular file with the settable
bits of `perm` less the umask, when its parent is a directory. -/
def Fs.OpenFile (fs : Fs) (p : FPath) (perm : Nat) : Except String Fs :=
  match fs.stat p with
  | some (Node.dir _) => Except.error "is a directory"
  | some (Node.file mode _) => Except.ok (fs.set p (Node.file mode ""))
  | none =>
    match fs.stat (Path.Dir p) with
    | some (Node.dir _) => Except.ok (fs.set p (Node.file (fs.created perm) ""))
    | some (Node.file _ _) => Except.error "not a directory"
    | none => Except.error "no such file or directory"

/-- Writing `bytes` to the open file at `p` appends them to its contents. -/
def Fs.write (fs : Fs) (p : FPath) (bytes : String) : Fs :=
  match fs.node p with
  | some (Node.file mode data) => fs.set p (Node.file mode (data ++ bytes))
  | _ => fs

/-- Every stored node has a directory as its parent. -/
def Fs.WF (fs : Fs) : Prop :=
  ∀ p, fs.node p ≠ none → ∃ m, fs.stat (Path.Dir p) = some (Node.dir m)

/-! ## archive/zip entries -/

/-- The bit `os.ModeDir` of a file mode. -/
def ModeDir : Nat := 2 ^ 31

/-- An entry of a zip archive (`*zip.File`), as the extractor sees it: its name,
the value of `file.Mode()`, the error of `file.Open()` if it fails, the
decompressed bytes its reader yields and the error that ends the reading (a bad
checksum, a corrupt stream) if there is one. -/
structure ZipFile where
  Name : String
  Mode : Nat
  openErr : Option String
  data : String
  readErr : Option String
  deriving DecidableEq

/-- The test `file.FileInfo().IsDir()`: the mode has the directory bit. -/
def ZipFile.IsDir (file : ZipFile) : Bool :=
  file.Mode / ModeDir % 2 == 1

/-- What `FileSystem.Open(source)`, `file.Stat()` and `zip.NewReader` yield for
the source: one of the three may fail, or the archive is read as a list of
entries. -/
inductive ZipSource where
  | openError (err : String)
  | statError (err : String)
  | notZip (err : String)
  | archive (files : List ZipFile)

/-! ## artifetcher/extractor/extractor.go -/

/-- The constant `niceFixYourZipMessage`. -/
def niceFixYourZipMessage : String :=
  "Please double check your zip compression method and that the correct files are zipped.\nYou can try confirming that it's valid on your computer by opening or performing some other action on it.\nOnce you've confirmed that it's valid, please try again."

/-- The method `Extractor.unzipFile`. Returns the filesystem it leaves behind
and the error, if any. `MkdirAll` changes nothing when it fails and `OpenFile`
nothing when it fails; the bytes read before a read error are written. -/
def unzipFile (fs : Fs) (destination : String) (file : ZipFile) : Fs × Option String :=
  match file.openErr with
  | some err => (fs, some ("cannot extract file from archive: " ++ err))
  | none =>
    if file.IsDir then (fs, none)
    else
      let savedLocation := Path.Join destination file.Name
      let directory := Path.Dir savedLocation
      match fs.MkdirAll directory 0o755 with
      | Except.error err =>
        (fs, some ("cannot make directory: " ++ directory.render ++ ": " ++ err))
      | Except.ok fs1 =>
        match fs1.OpenFile savedLocation file.Mode with
        | Except.error err =>
          (fs1, some ("cannot open file for writing: " ++ savedLocation.render ++ ": " ++ err))
        | Except.ok fs2 =>
          let fs3 := fs2.write savedLocation file.data
          match file.readErr with
          | some err =>
            (fs3, some ("cannot write to file: " ++ savedLocation.render ++ ": " ++ err))
          | none => (fs3, none)

/-- The loop `for _, file := range reader.File` of `Unzip`. -/
def extractAll (fs : Fs) (destination : String) : List ZipFile → Fs × Option String
  | [] => (fs, none)
  | file :: rest =>
    match unzipFile fs destination file with
    | (fs1, some err) =>
      (fs1, some ("cannot extract file from archive: " ++ file.Name ++ ": " ++ err))
    | (fs1, none) => extractAll fs1 destination rest

/-- The last step of `Unzip`: a non-empty manifest is written to
`destination/manifest.yml`, opened with create and truncate and mode 0600. -/
def writeManifest (fs : Fs) (destination manifest : String) : Fs × Option String :=
  if manifest ≠ "" then
    match fs.OpenFile (Path.Join destination "manifest.yml") 0o600 with
    | Except.error err => (fs, some ("cannot open manifest file: " ++ err))
    | Except.ok fs1 => (fs1.write (Path.Join destination "manifest.yml") manifest, none)
  else (fs, none)

/-- The method `Extractor.Unzip(source, destination, manifest)`. `src` is what
reading `source` yields; the filesystem resolves the `destination` string by
cleaning it; the log calls touch no file and are left out. Returns the
filesystem it leaves behind and the error, if any (`none` is Go's `nil`). -/
def Unzip (fs : Fs) (source : String) (src : ZipSource) (destination manifest : String) :
    Fs × Option String :=
  match fs.MkdirAll (Path.Clean destination) 0o755 with
  | Except.error err => (fs, some ("cannot create directory: " ++ err))
  | Except.ok fs0 =>
    match src with
    | ZipSource.openError err => (fs0, some err)
    | ZipSource.statError err => (fs0, some err)
    | ZipSource.notZip err =>
      (fs0, some ("cannot open zip file: " ++ source ++ ": " ++ err ++ "\n" ++ niceFixYourZipMessage))
    | ZipSource.archive files =>
      match extractAll fs0 destination files with
      | (fs1, some err) => (fs1, some err)
      | (fs1, none) => writeManifest fs1 destination manifest

/-- The entries of an archive that are not directories and whose target under
the destination is the path `t`, in archive order. -/
def entriesAt (destination : String) (t : FPath) (files : List ZipFile) : List ZipFile :=
  files.filter (fun f => !f.IsDir && decide (Path.Join destination f.Name = t))

/-- An archive whose only entry is a `manifest.yml` with mode 0644. -/
def manifestArchive : List ZipFile :=
  [⟨"manifest.yml", 0o644, none, "old", none⟩]

/-- The bit `os.ModeSymlink` of a file mode. -/
def ModeSymlink : Nat := 2 ^ 27

/-- A filesystem in which `app/manifest.yml` exists already, with mode 0640. -/
def manifestPresent : Fs :=
  (Fs.empty.set ⟨false, ["app"]⟩ (Node.dir 0o755)).set ⟨false, ["manifest.yml", "app"]⟩
    (Node.file 0o640 "before")

/-- An archive with two entries of the same name. -/
def twiceArchive : List ZipFile :=
  [⟨"a", 0o644, none, "one", none⟩, ⟨"a", 0o600, none, "two", none⟩]

/-- An archive whose second entry has the path of the first and cannot be read
to its end. -/
def brokenArchive : List ZipFile :=
  [⟨"a", 0o644, none, "hello", none⟩, ⟨"./a", 0o644, none, "", some "zip: checksum error"⟩,
   ⟨"b", 0o644, none, "later", none⟩]

/-- An archive with a symbolic link entry and a file entry with mode 0666. -/
def modesArchive : List ZipFile :=
  [⟨"link", ModeSymlink + 0o777, none, "target", none⟩, ⟨"lib/w.txt", 0o666, none, "W", none⟩]

/-- An archive with an entry whose name leaves the destination. -/
def slipArchive : List ZipFile :=
  [⟨"../evil", 0o644, none, "E", none⟩]

/-- An archive whose names hold `..` elements that do not leave the
destination. -/
def harmlessArchive : List ZipFile :=
  [⟨"lib/../a.txt", 0o644, none, "A", none⟩, ⟨"lib/sub/../b.txt", 0o644, none, "B", none⟩]

/-- An archive with a directory entry and a file in it. -/
def plainArchive : List ZipFile :=
  [⟨"lib/", ModeDir + 0o755, none, "", none⟩, ⟨"lib/a.txt", 0o640, none, "A", none⟩]

/-! ## controller/deployer/bluegreen -/

/-- Modelled from the spec: the record `config.Environment` (the config package
is not among the sources): a name and the foundation URLs in order. -/
structure Environment where
  Name : String
  Foundations : List String

/-- Modelled from the spec: a per-foundation worker (`interfaces.Pusher`; the
interfaces and mocks packages are not among the sources), given by what each of
its methods returns in this deployment: the error of `Login`, of `Push`, of
`Rollback` and of `FinishPush` (`none` is Go's `nil`), and what `Exists`
reports about the application. -/
structure Pusher where
  loginErr : Option String
  appExists : Bool
  pushErr : Option String
  rollbackErr : Option String
  finishPushErr : Option String
  deriving DecidableEq

/-- A call the orchestrator makes: on the factory, or on the worker of the
foundation with index `i`, with the arguments it passes. -/
inductive Call where
  | CreatePusher (i : Nat) (foundationURL : String)
  | Login (i : Nat) (foundationURL : String) (info : DeploymentInfo)
  | Exists (i : Nat) (appName : String)
  | Push (i : Nat) (appPath : String) (info : DeploymentInfo)
  | Rollback (i : Nat) (info : DeploymentInfo)
  | FinishPush (i : Nat) (info : DeploymentInfo)
  deriving DecidableEq

/-- Which method a call is. -/
inductive CallKind where
  | create | login | appExists | push | rollback | finishPush
  deriving DecidableEq

/-- The method of a call. -/
def Call.kind : Call → CallKind
  | Call.CreatePusher _ _ => CallKind.create
  | Call.Login _ _ _ => CallKind.login
  | Call.Exists _ _ => CallKind.appExists
  | Call.Push _ _ _ => CallKind.push
  | Call.Rollback _ _ => CallKind.rollback
  | Call.FinishPush _ _ => CallKind.finishPush

/-- The calls of one method among the calls made. -/
def callsOf (k : CallKind) (calls : List Call) : List Call :=
  calls.filter (fun c => c.kind == k)

/-- Modelled from the spec: the errors `BlueGreen.Push` returns (their
declarations are not among the sources): the factory error as it is, or the
aggregate of a phase (`LoginError`, `PushError`, `RollbackError`,
`FinishPushError`). -/
inductive DeployError where
  | unwrapped (err : String)
  | LoginError (loginErrors : List String)
  | PushError (pushErrors : List String)
  | RollbackError (pushErrors rollbackErrors : List String)
  | FinishPushError (finishPushErrors : List String)
  deriving DecidableEq

/-- Modelled from the spec: a created worker with the index and URL of its
foundation (bluegreen.go is not among the sources). -/
structure Actor where
  index : Nat
  foundationURL : String
  pusher : Pusher

/-- Modelled from the spec: a pusher factory (`interfaces.PusherCreator`, not
among the sources): what its call number `i` (counted from 0), made for a
foundation URL, returns. -/
abbrev PusherCreator := Nat → String → Except String Pusher

/-- What the factory returns for each foundation of a list, the first one being
call number `i`. -/
def factoryResults (factory : PusherCreator) (i : Nat) : List String → List (Except String Pusher)
  | [] => []
  | url :: rest => factory i url :: factoryResults factory (i + 1) rest

/-- One value per foundation, from its index (counted from `i`) and its URL. -/
def eachFoundation {α : Type} (f : Nat → String → α) (i : Nat) : List String → List α
  | [] => []
  | url :: rest => f i url :: eachFoundation f (i + 1) rest

/-- The errors among the results of one method over the workers, in order. -/
def errorsOf (result : Pusher → Option String) (workers : List Pusher) : List String :=
  workers.filterMap result

/-- Modelled from the spec: phase 1 of `BlueGreen.Push` (bluegreen.go is not
among the sources). For each foundation in order the factory is invoked; at
the first error the creation stops and that error is returned; otherwise the
workers are returned with their foundations. The calls made are returned as
well. -/
def createPushers (factory : PusherCreator) :
    Nat → List String → Except String (List Actor) × List Call
  | _, [] => (Except.ok [], [])
  | i, url :: rest =>
    match factory i url with
    | Except.error err => (Except.error err, [Call.CreatePusher i url])
    | Except.ok p =>
      match createPushers factory (i + 1) rest with
      | (Except.error err, calls) => (Except.error err, Call.CreatePusher i url :: calls)
      | (Except.ok actors, calls) =>
        (Except.ok (⟨i, url, p⟩ :: actors), Call.CreatePusher i url :: calls)

/-- Modelled from the spec: `BlueGreen.Push(environment, appPath, deploymentInfo,
response)` (bluegreen.go is not among the sources; its test file is). The
phases are those of section 4.1 of the specification: create the workers,
stopping at the first factory error, which is returned as it is; `Login` on
every worker, `LoginError` if any failed; `Exists` on every worker; `Push` on
every worker; if any push failed, `Rollback` on every worker, then
`PushError` if every rollback succeeded, `PushError` as well if `Exists`
reported on every worker that the application did not exist (the first-deploy
policy), and `RollbackError` otherwise; if no push failed, `FinishPush` on every
worker and `FinishPushError` if any failed, `nil` otherwise. The output stream
and the log are not modelled. Returns the error (`none` is `nil`) and the calls
made, in order. -/
def BlueGreen.Push (factory : PusherCreator) (environment : Environment) (appPath : String)
    (deploymentInfo : DeploymentInfo) : Option DeployError × List Call :=
  match createPushers factory 0 environment.Foundations with
  | (Except.error err, created) => (some (DeployError.unwrapped err), created)
  | (Except.ok actors, created) =>
    let logins := actors.map (fun a => Call.Login a.index a.foundationURL deploymentInfo)
    let loginErrors := actors.filterMap (fun a => a.pusher.loginErr)
    if loginErrors ≠ [] then (some (DeployError.LoginError loginErrors), created ++ logins)
    else
      let checks := actors.map (fun a => Call.Exists a.index deploymentInfo.AppName)
      let firstDeploy := (actors.map (fun a => a.pusher)).all (fun w => !w.appExists)
      let pushes := actors.map (fun a => Call.Push a.index appPath deploymentInfo)
      let pushErrors := actors.filterMap (fun a => a.pusher.pushErr)
      if pushErrors ≠ [] then
        let rollbacks := actors.map (fun a => Call.Rollback a.index deploymentInfo)
        let rollbackErrors := actors.filterMap (fun a => a.pusher.rollbackErr)
        if rollbackErrors = [] then
          (some (DeployError.PushError pushErrors),
            created ++ logins ++ checks ++ pushes ++ rollbacks)
        else if firstDeploy then
          (some (DeployError.PushError pushErrors),
            created ++ logins ++ checks ++ pushes ++ rollbacks)
        else
          (some (DeployError.RollbackError pushErrors rollbackErrors),
            created ++ logins ++ checks ++ pushes ++ rollbacks)
      else
        let finishes := actors.map (fun a => Call.FinishPush a.index deploymentInfo)
        let finishPushErrors := actors.filterMap (fun a => a.pusher.finishPushErr)
        if finishPushErrors ≠ [] then
          (some (DeployError.FinishPushError finishPushErrors),
            created ++ logins ++ checks ++ pushes ++ finishes)
        else (none, created ++ logins ++ checks ++ pushes ++ finishes)

/-! ### The scenarios of bluegreen_test.go -/

/-- Modelled from the spec: the mock factory of the tests
(`mocks.PusherCreator`, not among the sources), as bluegreen_test.go prepares
it: call number `i` returns the `i`-th prepared error if there is one and it is
not nil, and the `i`-th prepared pusher otherwise. -/
def mockFactory (pushers : List Pusher) (errors : List (Option String)) : PusherCreator :=
  fun i _ =>
    match errors.getD i none with
    | some err => Except.error err
    | none => Except.ok (pushers.getD i ⟨none, false, none, none, none⟩)

/-- Modelled from the spec: a pusher (`interfaces.Pusher`, not among the
sources) on which every method returns nil and `Exists` reports that the
application does not exist. -/
def mockPusher : Pusher := ⟨none, false, none, none, none⟩

/-- The `deploymentInfo` of the tests: only `AppName` is set. -/
def testInfo : DeploymentInfo :=
  ⟨"", "", "", "", "", "", "", "appName-test", "", false, 0, "", "", none, none⟩

/-- The `environment` of the tests: two foundations. -/
def testEnvironment : Environment := ⟨"env", ["foundation-one", "foundation-two"]⟩


/-- The pushers of the test `when rollback fails`: the first fails its push and
its rollback; `reported` is what `Exists` reports on the mock pushers, which
the test does not set and the absent mock decides. -/
def rollbackFailsPushers (reported : Bool) : List Pusher :=
  [⟨none, reported, some "push error", some "rollback error", none⟩,
   ⟨none, reported, none, none, none⟩]

/-- Two pushers, the first failing its push and its rollback, where the
application exists on the second foundation only. -/
def redeployPushers : List Pusher :=
  [⟨none, false, some "push error", some "rollback error", none⟩,
   ⟨none, true, none, none, none⟩]

/-- Two pushers that both fail their push, the first its rollback as well;
`Exists` reports false on both. -/
def firstDeployPushers : List Pusher :=
  [⟨none, false, some "push error", some "rollback error", none⟩,
   ⟨none, false, some "push error", none, none⟩]

/-- The pushers of the test `when a login command fails`: the first fails its
login. -/
def loginFailsPushers : List Pusher :=
  [⟨some "loginOutput", false, none, none, none⟩, mockPusher]

/-- The pushers of the test `when finish push fails`: the first fails its
`FinishPush`. -/
def finishFailsPushers : List Pusher :=
  [⟨none, false, none, none, some "finish push error"⟩, mockPusher]

/-! ## Theorems: the orchestrator -/

theorem errorsOf_eq_nil_iff (result : Pusher → Option String) (ws : List Pusher) :
    errorsOf result ws = [] ↔ ∀ w ∈ ws, result w = none := by
  unfold errorsOf
  induction ws with
  | nil => simp
  | cons w rest ih =>
    cases hw : result w with
    | none => simp [List.filterMap_cons, hw, ih]
    | some e => simp [List.filterMap_cons, hw]

theorem errorsOf_ne_nil_iff (result : Pusher → Option String) (ws : List Pusher) :
    errorsOf result ws ≠ [] ↔ ∃ w ∈ ws, result w ≠ none := by
  rw [Ne, errorsOf_eq_nil_iff]
  push_neg
  rfl

theorem createPushers_all_ok (factory : PusherCreator) :
    ∀ (urls : List String) (ws : List Pusher) (i : Nat),
      factoryResults factory i urls = ws.map Except.ok →
      ∃ actors : List Actor,
        createPushers factory i urls
          = (Except.ok actors, eachFoundation Call.CreatePusher i urls) ∧
        (∀ mk : Nat → String → Call,
          actors.map (fun a => mk a.index a.foundationURL) = eachFoundation mk i urls) ∧
        (∀ result : Pusher → Option String,
          actors.filterMap (fun a => result a.pusher) = errorsOf result ws) ∧
        actors.map (fun a => a.pusher) = ws := by
  intro urls
  induction urls with
  | nil =>
    intro ws i h
    cases ws with
    | nil => exact ⟨[], rfl, fun _ => rfl, fun _ => rfl, rfl⟩
    | cons w rest => simp [factoryResults] at h
  | cons url rest ih =>
    intro ws i h
    cases ws with
    | nil => simp [factoryResults] at h
    | cons w ws1 =>
      simp only [factoryResults, List.map_cons, List.cons.injEq] at h
      obtain ⟨actors, hc, hm, hr, hp⟩ := ih ws1 (i + 1) h.2
      refine ⟨⟨i, url, w⟩ :: actors, ?_, ?_, ?_, ?_⟩
      · simp only [createPushers, h.1, hc, eachFoundation]
      · intro mk
        simp only [List.map_cons, eachFoundation, hm mk]
      · intro result
        have := hr result
        unfold errorsOf at this ⊢
        simp only [List.filterMap_cons, this]
      · simp only [List.map_cons, hp]

theorem createPushers_fails_at (factory : PusherCreator) (url e : String) (post : List String) :
    ∀ (pre : List String) (ws : List Pusher) (i : Nat),
      factoryResults factory i pre = ws.map Except.ok →
      factory (i + pre.length) url = Except.error e →
      createPushers factory i (pre ++ url :: post)
        = (Except.error e, eachFoundation Call.CreatePusher i (pre ++ [url])) := by
  intro pre
  induction pre with
  | nil =>
    intro ws i _ he
    simp only [List.length_nil, Nat.add_zero] at he
    simp only [List.nil_append, createPushers, he, eachFoundation]
  | cons u rest ih =>
    intro ws i h he
    cases ws with
    | nil => simp [factoryResults] at h
    | cons w ws1 =>
      simp only [factoryResults, List.map_cons, List.cons.injEq] at h
      have he1 : factory (i + 1 + rest.length) url = Except.error e := by
        rw [← he]; congr 1; simp only [List.length_cons]; omega
      have := ih ws1 (i + 1) h.2 he1
      show createPushers factory i (u :: (rest ++ url :: post))
        = (Except.error e, eachFoundation Call.CreatePusher i (u :: (rest ++ [url])))
      simp only [createPushers, h.1, this, eachFoundation]

theorem callsOf_append (k : CallKind) (a b : List Call) :
    callsOf k (a ++ b) = callsOf k a ++ callsOf k b := by
  simp [callsOf]

theorem callsOf_eachFoundation_same (k : CallKind) (mk : Nat → String → Call)
    (h : ∀ i url, (mk i url).kind = k) :
    ∀ (urls : List String) (i : Nat),
      callsOf k (eachFoundation mk i urls) = eachFoundation mk i urls := by
  intro urls
  induction urls with
  | nil => intro i; rfl
  | cons url rest ih =>
    intro i
    have := ih (i + 1)
    unfold callsOf at this ⊢
    simp [eachFoundation, h, this]

theorem callsOf_eachFoundation_other (k : CallKind) (mk : Nat → String → Call)
    (h : ∀ i url, (mk i url).kind ≠ k) :
    ∀ (urls : List String) (i : Nat), callsOf k (eachFoundation mk i urls) = [] := by
  intro urls
  induction urls with
  | nil => intro i; rfl
  | cons url rest ih =>
    intro i
    have := ih (i + 1)
    unfold callsOf at this ⊢
    simp [eachFoundation, h, this]

/-- The whole run of `BlueGreen.Push` when every factory call succeeds, in terms
of the workers created. -/
theorem push_of_created (factory : PusherCreator) (env : Environment) (appPath : String)
    (info : DeploymentInfo) (ws : List Pusher)
    (hf : factoryResults factory 0 env.Foundations = ws.map Except.ok) :
    BlueGreen.Push factory env appPath info =
      (let created := eachFoundation Call.CreatePusher 0 env.Foundations
       let logins := eachFoundation (fun i url => Call.Login i url info) 0 env.Foundations
       let checks := eachFoundation (fun i _ => Call.Exists i info.AppName) 0 env.Foundations
       let pushes := eachFoundation (fun i _ => Call.Push i appPath info) 0 env.Foundations
       let rollbacks := eachFoundation (fun i _ => Call.Rollback i info) 0 env.Foundations
       let finishes := eachFoundation (fun i _ => Call.FinishPush i info) 0 env.Foundations
       if errorsOf Pusher.loginErr ws ≠ [] then
         (some (DeployError.LoginError (errorsOf Pusher.loginErr ws)), created ++ logins)
       else if errorsOf Pusher.pushErr ws ≠ [] then
         (some (if errorsOf Pusher.rollbackErr ws = [] then
              DeployError.PushError (errorsOf Pusher.pushErr ws)
            else if ws.all (fun w => !w.appExists) then
              DeployError.PushError (errorsOf Pusher.pushErr ws)
            else DeployError.RollbackError (errorsOf Pusher.pushErr ws)
              (errorsOf Pusher.rollbackErr ws)),
          created ++ logins ++ checks ++ pushes ++ rollbacks)
       else if errorsOf Pusher.finishPushErr ws ≠ [] then
         (some (DeployError.FinishPushError (errorsOf Pusher.finishPushErr ws)),
          created ++ logins ++ checks ++ pushes ++ finishes)
       else (none, created ++ logins ++ checks ++ pushes ++ finishes)) := by
  obtain ⟨actors, hc, hm, hr, hp⟩ := createPushers_all_ok factory env.Foundations ws 0 hf
  unfold BlueGreen.Push
  simp only [hc]
  rw [hm (fun i url => Call.Login i url info), hm (fun i _ => Call.Exists i info.AppName),
    hm (fun i _ => Call.Push i appPath info), hm (fun i _ => Call.Rollback i info),
    hm (fun i _ => Call.FinishPush i info), hr Pusher.loginErr, hr Pusher.pushErr,
    hr Pusher.rollbackErr, hr Pusher.finishPushErr, hp]
  by_cases h1 : errorsOf Pusher.loginErr ws = []
  · by_cases h2 : errorsOf Pusher.pushErr ws = []
    · simp only [h1, h2, ne_eq, not_true_eq_false, if_false]
    · by_cases h3 : errorsOf Pusher.rollbackErr ws = []
      · simp only [h1, h2, h3, ne_eq, not_true_eq_false, not_false_eq_true, if_true, if_false]
      · by_cases h4 : ws.all (fun w => !w.appExists) = true
        · simp only [h1, h2, h3, h4, ne_eq, not_true_eq_false, not_false_eq_true, if_true,
            if_false]
        · simp only [h1, h2, h3, h4, ne_eq, not_true_eq_false, not_false_eq_true, if_true,
            if_false, Bool.false_eq_true]
  · simp only [h1, ne_eq, not_false_eq_true, if_true]

theorem all_not_exists_iff (ws : List Pusher) :
    ws.all (fun w => !w.appExists) = true ↔ ∀ w ∈ ws, w.appExists = false := by
  simp [List.all_eq_true]

theorem callsOf_rollback_phase (env : Environment) (appPath : String) (info : DeploymentInfo) :
    callsOf CallKind.rollback
        (eachFoundation Call.CreatePusher 0 env.Foundations ++
          eachFoundation (fun i url => Call.Login i url info) 0 env.Foundations ++
          eachFoundation (fun i _ => Call.Exists i info.AppName) 0 env.Foundations ++
          eachFoundation (fun i _ => Call.Push i appPath info) 0 env.Foundations ++
          eachFoundation (fun i _ => Call.Rollback i info) 0 env.Foundations)
      = eachFoundation (fun i _ => Call.Rollback i info) 0 env.Foundations ∧
    callsOf CallKind.finishPush
        (eachFoundation Call.CreatePusher 0 env.Foundations ++
          eachFoundation (fun i url => Call.Login i url info) 0 env.Foundations ++
          eachFoundation (fun i _ => Call.Exists i info.AppName) 0 env.Foundations ++
          eachFoundation (fun i _ => Call.Push i appPath info) 0 env.Foundations ++
          eachFoundation (fun i _ => Call.Rollback i info) 0 env.Foundations)
      = [] := by
  simp only [callsOf_append]
  constructor
  · rw [callsOf_eachFoundation_other _ _ (by intro i url; simp [Call.kind]),
      callsOf_eachFoundation_other _ _ (by intro i url; simp [Call.kind]),
      callsOf_eachFoundation_other _ _ (by intro i url; simp [Call.kind]),
      callsOf_eachFoundation_other _ _ (by intro i url; simp [Call.kind]),
      callsOf_eachFoundation_same _ _ (by intro i url; simp [Call.kind])]
    rfl
  · rw [callsOf_eachFoundation_other _ _ (by intro i url; simp [Call.kind]),
      callsOf_eachFoundation_other _ _ (by intro i url; simp [Call.kind]),
      callsOf_eachFoundation_other _ _ (by intro i url; simp [Call.kind]),
      callsOf_eachFoundation_other _ _ (by intro i url; simp [Call.kind]),
      callsOf_eachFoundation_other _ _ (by intro i url; simp [Call.kind])]
    rfl

/-- C10: `HasEnvironmentVariables` returns true if and only if the
`EnvironmentVariables` mapping contains at least one entry; it returns false
for the nil mapping and for the empty non-nil mapping; and it does not depend
on any other field (changing every other field of a `DeploymentInfo` leaves
the result as it is). -/
theorem hasEnvironmentVariables_spec (info other : DeploymentInfo) :
    (info.HasEnvironmentVariables = true ↔
      ∃ kvs kv, info.EnvironmentVariables = some kvs ∧ kv ∈ kvs) ∧
    ({ info with EnvironmentVariables := none }).HasEnvironmentVariables = false ∧
    ({ info with EnvironmentVariables := some [] }).HasEnvironmentVariables = false ∧
    ({ other with EnvironmentVariables := info.EnvironmentVariables }).HasEnvironmentVariables
      = info.HasEnvironmentVariables := by
  refine ⟨?_, rfl, rfl, rfl⟩
  unfold DeploymentInfo.HasEnvironmentVariables
  cases h : info.EnvironmentVariables with
  | none => simp
  | some kvs =>
    cases kvs with
    | nil => simp [GoMap.len]
    | cons kv rest => simp [GoMap.len]; exact ⟨kv.1, kv.2, Or.inl rfl⟩

/-- C4, as amended: when every factory call and every `Login` succeeds and at
least one worker's `Push` returns an error (so that the environment has at
least one foundation), the `Rollback` calls made are exactly one
`Rollback(info)` per worker, in foundation order, and no `FinishPush` call is
made. The result is `PushError{pushErrs}` when every `Rollback` succeeds, and
also when `Exists` reported on every worker that the application did not exist;
it is `RollbackError{pushErrs, rollbackErrs}` when some `Rollback` fails and
`Exists` reported the application on at least one worker. The error lists are
the non-nil errors of the phase in foundation order. -/
theorem push_failure_rolls_back_every_worker (factory : PusherCreator) (env : Environment)
    (appPath : String) (info : DeploymentInfo) (ws : List Pusher)
    (hf : factoryResults factory 0 env.Foundations = ws.map Except.ok)
    (hlogin : ∀ w ∈ ws, w.loginErr = none)
    (hpush : ∃ w ∈ ws, w.pushErr ≠ none) :
    callsOf CallKind.rollback (BlueGreen.Push factory env appPath info).2
      = eachFoundation (fun i _ => Call.Rollback i info) 0 env.Foundations ∧
    callsOf CallKind.finishPush (BlueGreen.Push factory env appPath info).2 = [] ∧
    ((∀ w ∈ ws, w.rollbackErr = none) →
      (BlueGreen.Push factory env appPath info).1
        = some (DeployError.PushError (errorsOf Pusher.pushErr ws))) ∧
    ((∀ w ∈ ws, w.appExists = false) →
      (BlueGreen.Push factory env appPath info).1
        = some (DeployError.PushError (errorsOf Pusher.pushErr ws))) ∧
    ((∃ w ∈ ws, w.rollbackErr ≠ none) → (∃ w ∈ ws, w.appExists = true) →
      (BlueGreen.Push factory env appPath info).1
        = some (DeployError.RollbackError (errorsOf Pusher.pushErr ws)
            (errorsOf Pusher.rollbackErr ws))) := by
  have hl := (errorsOf_eq_nil_iff Pusher.loginErr ws).2 hlogin
  have hp := (errorsOf_ne_nil_iff Pusher.pushErr ws).2 hpush
  rw [push_of_created factory env appPath info ws hf]
  simp only [hl, hp, ne_eq, not_true_eq_false, not_false_eq_true, if_true, if_false]
  obtain ⟨hc1, hc2⟩ := callsOf_rollback_phase env appPath info
  refine ⟨hc1, hc2, ?_, ?_, ?_⟩
  · intro hall
    rw [if_pos ((errorsOf_eq_nil_iff Pusher.rollbackErr ws).2 hall)]
  · intro hfirst
    have h4 := (all_not_exists_iff ws).2 hfirst
    by_cases hr : errorsOf Pusher.rollbackErr ws = []
    · rw [if_pos hr]
    · rw [if_neg hr, if_pos h4]
  · intro hsome hseen
    have hr := (errorsOf_ne_nil_iff Pusher.rollbackErr ws).2 hsome
    have h4 : ¬ ws.all (fun w => !w.appExists) = true := by
      rw [all_not_exists_iff]
      intro hall
      obtain ⟨w, hw, hx⟩ := hseen
      rw [hall w hw] at hx
      cases hx
    rw [if_neg hr, if_neg h4]

/-- Witness of the amended C4: the first of two workers fails its push and its
rollback, and the application exists on the second foundation. -/
theorem push_failure_rolls_back_every_worker_witness :
    (factoryResults (mockFactory redeployPushers [none, none]) 0 testEnvironment.Foundations
      = redeployPushers.map Except.ok) ∧
    callsOf CallKind.rollback
      (BlueGreen.Push (mockFactory redeployPushers [none, none]) testEnvironment "appPath"
        testInfo).2
      = [Call.Rollback 0 testInfo, Call.Rollback 1 testInfo] ∧
    (BlueGreen.Push (mockFactory redeployPushers [none, none]) testEnvironment "appPath"
        testInfo).1
      = some (DeployError.RollbackError (errorsOf Pusher.pushErr redeployPushers)
          (errorsOf Pusher.rollbackErr redeployPushers)) :=
  ⟨rfl,
   (push_failure_rolls_back_every_worker (mockFactory redeployPushers [none, none])
      testEnvironment "appPath" testInfo redeployPushers rfl (by decide) (by decide)).1,
   (push_failure_rolls_back_every_worker (mockFactory redeployPushers [none, none])
      testEnvironment "appPath" testInfo redeployPushers rfl (by decide)
      (by decide)).2.2.2.2 (by decide) (by decide)⟩

/-- C4 as stated fails on a first deploy: every factory call and login
succeeds, both pushes fail and the first rollback fails, while `Exists` reports
on both workers that the application did not exist. The result is
`PushError{[push error, push error]}`, not a `RollbackError`. -/
theorem rollback_error_counterexample :
    (factoryResults (mockFactory firstDeployPushers [none, none]) 0
        testEnvironment.Foundations = firstDeployPushers.map Except.ok) ∧
    (∀ w ∈ firstDeployPushers, w.loginErr = none) ∧
    (∃ w ∈ firstDeployPushers, w.pushErr ≠ none) ∧
    (∃ w ∈ firstDeployPushers, w.rollbackErr ≠ none) ∧
    (BlueGreen.Push (mockFactory firstDeployPushers [none, none]) testEnvironment "appPath"
        testInfo).1
      = some (DeployError.PushError ["push error", "push error"]) ∧
    (BlueGreen.Push (mockFactory firstDeployPushers [none, none]) testEnvironment "appPath"
        testInfo).1
      ≠ some (DeployError.RollbackError (errorsOf Pusher.pushErr firstDeployPushers)
          (errorsOf Pusher.rollbackErr firstDeployPushers)) :=
  ⟨rfl, by decide, by decide, by decide, by decide, by decide⟩

/-- C5: when every factory call and every `Login` succeeds, `Exists` reports
false on every worker and at least one `Push` fails, the `Rollback` calls made
are still exactly one `Rollback(info)` per worker, and the result is
`PushError{pushErrs}` whatever the `Rollback` calls return: it is no
`RollbackError`, even when a `Rollback` fails. -/
theorem first_deploy_push_failure (factory : PusherCreator) (env : Environment)
    (appPath : String) (info : DeploymentInfo) (ws : List Pusher)
    (hf : factoryResults factory 0 env.Foundations = ws.map Except.ok)
    (hlogin : ∀ w ∈ ws, w.loginErr = none)
    (hfirst : ∀ w ∈ ws, w.appExists = false)
    (hpush : ∃ w ∈ ws, w.pushErr ≠ none) :
    callsOf CallKind.rollback (BlueGreen.Push factory env appPath info).2
      = eachFoundation (fun i _ => Call.Rollback i info) 0 env.Foundations ∧
    (BlueGreen.Push factory env appPath info).1
      = some (DeployError.PushError (errorsOf Pusher.pushErr ws)) ∧
    (∀ pushErrs rollbackErrs, (BlueGreen.Push factory env appPath info).1
      ≠ some (DeployError.RollbackError pushErrs rollbackErrs)) := by
  have hl := (errorsOf_eq_nil_iff Pusher.loginErr ws).2 hlogin
  have hp := (errorsOf_ne_nil_iff Pusher.pushErr ws).2 hpush
  have h4 := (all_not_exists_iff ws).2 hfirst
  have hres : (BlueGreen.Push factory env appPath info).1
      = some (DeployError.PushError (errorsOf Pusher.pushErr ws)) := by
    rw [push_of_created factory env appPath info ws hf]
    simp only [hl, hp, ne_eq, not_true_eq_false, not_false_eq_true, if_true, if_false]
    by_cases hr : errorsOf Pusher.rollbackErr ws = []
    · rw [if_pos hr]
    · rw [if_neg hr, if_pos h4]
  refine ⟨?_, hres, ?_⟩
  · rw [push_of_created factory env appPath info ws hf]
    simp only [hl, hp, ne_eq, not_true_eq_false, not_false_eq_true, if_true, if_false]
    exact (callsOf_rollback_phase env appPath info).1
  · intro pushErrs rollbackErrs h
    rw [hres] at h
    cases h

/-- Witness of C5: both pushes fail on a first deploy and the first rollback
fails; the result is the `PushError` of the two push errors. -/
theorem first_deploy_push_failure_witness :
    (∀ w ∈ firstDeployPushers, w.appExists = false) ∧
    (∃ w ∈ firstDeployPushers, w.rollbackErr ≠ none) ∧
    (BlueGreen.Push (mockFactory firstDeployPushers [none, none]) testEnvironment "appPath"
        testInfo).1
      = some (DeployError.PushError (errorsOf Pusher.pushErr firstDeployPushers)) :=
  ⟨by decide, by decide,
   (first_deploy_push_failure (mockFactory firstDeployPushers [none, none]) testEnvironment
      "appPath" testInfo firstDeployPushers rfl (by decide) (by decide) (by decide)).2.1⟩

/-- C6: when every factory call succeeds and at least one worker's `Login`
returns an error, the `Login` calls made are exactly one per worker, worker `i`
receiving the foundation URL `env.Foundations[i]` and the given
`DeploymentInfo`; the result is `LoginError{errs}` with the failing workers'
errors in foundation order; and no `Push`, `Rollback` or `FinishPush` call is
made. -/
theorem login_failure_is_a_barrier (factory : PusherCreator) (env : Environment)
    (appPath : String) (info : DeploymentInfo) (ws : List Pusher)
    (hf : factoryResults factory 0 env.Foundations = ws.map Except.ok)
    (hlogin : ∃ w ∈ ws, w.loginErr ≠ none) :
    callsOf CallKind.login (BlueGreen.Push factory env appPath info).2
      = eachFoundation (fun i url => Call.Login i url info) 0 env.Foundations ∧
    (BlueGreen.Push factory env appPath info).1
      = some (DeployError.LoginError (errorsOf Pusher.loginErr ws)) ∧
    callsOf CallKind.push (BlueGreen.Push factory env appPath info).2 = [] ∧
    callsOf CallKind.rollback (BlueGreen.Push factory env appPath info).2 = [] ∧
    callsOf CallKind.finishPush (BlueGreen.Push factory env appPath info).2 = [] := by
  have hl := (errorsOf_ne_nil_iff Pusher.loginErr ws).2 hlogin
  rw [push_of_created factory env appPath info ws hf]
  simp only [hl, ne_eq, not_false_eq_true, if_true, callsOf_append]
  refine ⟨?_, trivial, ?_, ?_, ?_⟩
  · rw [callsOf_eachFoundation_other _ _ (by intro i url; simp [Call.kind]),
      callsOf_eachFoundation_same _ _ (by intro i url; simp [Call.kind])]
    rfl
  · rw [callsOf_eachFoundation_other _ _ (by intro i url; simp [Call.kind]),
      callsOf_eachFoundation_other _ _ (by intro i url; simp [Call.kind])]
    rfl
  · rw [callsOf_eachFoundation_other _ _ (by intro i url; simp [Call.kind]),
      callsOf_eachFoundation_other _ _ (by intro i url; simp [Call.kind])]
    rfl
  · rw [callsOf_eachFoundation_other _ _ (by intro i url; simp [Call.kind]),
      callsOf_eachFoundation_other _ _ (by intro i url; simp [Call.kind])]
    rfl

/-- Witness of C6 on the scenario of the test `when a login command fails`. -/
theorem login_failure_is_a_barrier_witness :
    (factoryResults (mockFactory loginFailsPushers [none, none]) 0 testEnvironment.Foundations
      = loginFailsPushers.map Except.ok) ∧
    (∃ w ∈ loginFailsPushers, w.loginErr ≠ none) ∧
    (BlueGreen.Push (mockFactory loginFailsPushers [none, none]) testEnvironment "appPath"
        testInfo).1
      = some (DeployError.LoginError (errorsOf Pusher.loginErr loginFailsPushers)) :=
  ⟨rfl, by decide,
   (login_failure_is_a_barrier (mockFactory loginFailsPushers [none, none]) testEnvironment
      "appPath" testInfo loginFailsPushers rfl (by decide)).2.1⟩

/-- C7: when every factory call, `Login` and `Push` succeeds, the calls of
`Exists`, `Push` and `FinishPush` made are exactly one `Exists(info.AppName)`,
one `Push(appPath, info)` and one `FinishPush(info)` per worker, and no
`Rollback` call is made, whether or not a `FinishPush` fails; the result is nil
if and only if every `FinishPush` succeeds, and otherwise it is
`FinishPushError{errs}` with the failing `FinishPush` errors in foundation
order. -/
theorem finish_phase_runs_on_every_worker (factory : PusherCreator) (env : Environment)
    (appPath : String) (info : DeploymentInfo) (ws : List Pusher)
    (hf : factoryResults factory 0 env.Foundations = ws.map Except.ok)
    (hlogin : ∀ w ∈ ws, w.loginErr = none)
    (hpush : ∀ w ∈ ws, w.pushErr = none) :
    callsOf CallKind.appExists (BlueGreen.Push factory env appPath info).2
      = eachFoundation (fun i _ => Call.Exists i info.AppName) 0 env.Foundations ∧
    callsOf CallKind.push (BlueGreen.Push factory env appPath info).2
      = eachFoundation (fun i _ => Call.Push i appPath info) 0 env.Foundations ∧
    callsOf CallKind.finishPush (BlueGreen.Push factory env appPath info).2
      = eachFoundation (fun i _ => Call.FinishPush i info) 0 env.Foundations ∧
    callsOf CallKind.rollback (BlueGreen.Push factory env appPath info).2 = [] ∧
    ((BlueGreen.Push factory env appPath info).1 = none ↔ ∀ w ∈ ws, w.finishPushErr = none) ∧
    ((∃ w ∈ ws, w.finishPushErr ≠ none) →
      (BlueGreen.Push factory env appPath info).1
        = some (DeployError.FinishPushError (errorsOf Pusher.finishPushErr ws))) := by
  have hl := (errorsOf_eq_nil_iff Pusher.loginErr ws).2 hlogin
  have hp := (errorsOf_eq_nil_iff Pusher.pushErr ws).2 hpush
  rw [push_of_created factory env appPath info ws hf]
  simp only [hl, hp, ne_eq, not_true_eq_false, if_false]
  have hcalls :
      callsOf CallKind.appExists
          (eachFoundation Call.CreatePusher 0 env.Foundations ++
            eachFoundation (fun i url => Call.Login i url info) 0 env.Foundations ++
            eachFoundation (fun i _ => Call.Exists i info.AppName) 0 env.Foundations ++
            eachFoundation (fun i _ => Call.Push i appPath info) 0 env.Foundations ++
            eachFoundation (fun i _ => Call.FinishPush i info) 0 env.Foundations)
        = eachFoundation (fun i _ => Call.Exists i info.AppName) 0 env.Foundations ∧
      callsOf CallKind.push
          (eachFoundation Call.CreatePusher 0 env.Foundations ++
            eachFoundation (fun i url => Call.Login i url info) 0 env.Foundations ++
            eachFoundation (fun i _ => Call.Exists i info.AppName) 0 env.Foundations ++
            eachFoundation (fun i _ => Call.Push i appPath info) 0 env.Foundations ++
            eachFoundation (fun i _ => Call.FinishPush i info) 0 env.Foundations)
        = eachFoundation (fun i _ => Call.Push i appPath info) 0 env.Foundations ∧
      callsOf CallKind.finishPush
          (eachFoundation Call.CreatePusher 0 env.Foundations ++
            eachFoundation (fun i url => Call.Login i url info) 0 env.Foundations ++
            eachFoundation (fun i _ => Call.Exists i info.AppName) 0 env.Foundations ++
            eachFoundation (fun i _ => Call.Push i appPath info) 0 env.Foundations ++
            eachFoundation (fun i _ => Call.FinishPush i info) 0 env.Foundations)
        = eachFoundation (fun i _ => Call.FinishPush i info) 0 env.Foundations ∧
      callsOf CallKind.rollback
          (eachFoundation Call.CreatePusher 0 env.Foundations ++
            eachFoundation (fun i url => Call.Login i url info) 0 env.Foundations ++
            eachFoundation (fun i _ => Call.Exists i info.AppName) 0 env.Foundations ++
            eachFoundation (fun i _ => Call.Push i appPath info) 0 env.Foundations ++
            eachFoundation (fun i _ => Call.FinishPush i info) 0 env.Foundations)
        = [] := by
    simp only [callsOf_append]
    refine ⟨?_, ?_, ?_, ?_⟩
    · rw [callsOf_eachFoundation_other _ _ (by intro i url; simp [Call.kind]),
        callsOf_eachFoundation_other _ _ (by intro i url; simp [Call.kind]),
        callsOf_eachFoundation_same _ _ (by intro i url; simp [Call.kind]),
        callsOf_eachFoundation_other _ _ (by intro i url; simp [Call.kind]),
        callsOf_eachFoundation_other _ _ (by intro i url; simp [Call.kind])]
      simp
    · rw [callsOf_eachFoundation_other _ _ (by intro i url; simp [Call.kind]),
        callsOf_eachFoundation_other _ _ (by intro i url; simp [Call.kind]),
        callsOf_eachFoundation_other _ _ (by intro i url; simp [Call.kind]),
        callsOf_eachFoundation_same _ _ (by intro i url; simp [Call.kind]),
        callsOf_eachFoundation_other _ _ (by intro i url; simp [Call.kind])]
      simp
    · rw [callsOf_eachFoundation_other _ _ (by intro i url; simp [Call.kind]),
        callsOf_eachFoundation_other _ _ (by intro i url; simp [Call.kind]),
        callsOf_eachFoundation_other _ _ (by intro i url; simp [Call.kind]),
        callsOf_eachFoundation_other _ _ (by intro i url; simp [Call.kind]),
        callsOf_eachFoundation_same _ _ (by intro i url; simp [Call.kind])]
      simp
    · rw [callsOf_eachFoundation_other _ _ (by intro i url; simp [Call.kind]),
        callsOf_eachFoundation_other _ _ (by intro i url; simp [Call.kind]),
        callsOf_eachFoundation_other _ _ (by intro i url; simp [Call.kind]),
        callsOf_eachFoundation_other _ _ (by intro i url; simp [Call.kind]),
        callsOf_eachFoundation_other _ _ (by intro i url; simp [Call.kind])]
      simp
  by_cases hfin : errorsOf Pusher.finishPushErr ws = []
  · have hfin1 := (errorsOf_eq_nil_iff Pusher.finishPushErr ws).1 hfin
    simp only [hfin, not_true_eq_false, if_false]
    refine ⟨hcalls.1, hcalls.2.1, hcalls.2.2.1, hcalls.2.2.2, ?_, ?_⟩
    · exact ⟨fun _ => hfin1, fun _ => trivial⟩
    · rintro ⟨w, hw, hne1⟩
      exact absurd (hfin1 w hw) hne1
  · simp only [hfin, not_false_eq_true, if_true]
    refine ⟨hcalls.1, hcalls.2.1, hcalls.2.2.1, hcalls.2.2.2, ?_, fun _ => trivial⟩
    constructor
    · intro h; cases h
    · intro hall
      exact absurd ((errorsOf_eq_nil_iff Pusher.finishPushErr ws).2 hall) hfin

/-- Witness of C7 on the scenario of the test `when finish push fails`. -/
theorem finish_phase_runs_on_every_worker_witness :
    (∀ w ∈ finishFailsPushers, w.loginErr = none ∧ w.pushErr = none) ∧
    (BlueGreen.Push (mockFactory finishFailsPushers [none, none]) testEnvironment "appPath"
        testInfo).1
      = some (DeployError.FinishPushError (errorsOf Pusher.finishPushErr finishFailsPushers)) :=
  ⟨by decide,
   (finish_phase_runs_on_every_worker (mockFactory finishFailsPushers [none, none])
      testEnvironment "appPath" testInfo finishFailsPushers rfl (by decide)
      (by decide)).2.2.2.2.2 (by decide)⟩

/-- C8: when the factory succeeds for the foundations before index `k` and
returns an error `e` for foundation `k`, `BlueGreen.Push` returns `e` itself, in
no aggregate, and the calls made are the factory calls for the foundations up to
`k` and nothing else: the factory is not called for any later foundation and no
`Login`, `Exists`, `Push`, `Rollback` or `FinishPush` call is made. -/
theorem factory_failure_short_circuits (factory : PusherCreator) (env : Environment)
    (appPath : String) (info : DeploymentInfo) (before after : List String) (url e : String)
    (ws : List Pusher)
    (henv : env.Foundations = before ++ url :: after)
    (hok : factoryResults factory 0 before = ws.map Except.ok)
    (hfail : factory before.length url = Except.error e) :
    BlueGreen.Push factory env appPath info
      = (some (DeployError.unwrapped e),
         eachFoundation Call.CreatePusher 0 (before ++ [url])) := by
  have hfail1 : factory (0 + before.length) url = Except.error e := by
    rw [Nat.zero_add]; exact hfail
  unfold BlueGreen.Push
  rw [henv, createPushers_fails_at factory url e after before ws 0 hok hfail1]

/-- Witness of C8: the factory succeeds for the first of two foundations and
fails for the second. -/
theorem factory_failure_short_circuits_witness :
    BlueGreen.Push (mockFactory [mockPusher, mockPusher] [none, some "push creator failed"])
        testEnvironment "appPath" testInfo
      = (some (DeployError.unwrapped "push creator failed"),
         [Call.CreatePusher 0 "foundation-one", Call.CreatePusher 1 "foundation-two"]) :=
  factory_failure_short_circuits
    (mockFactory [mockPusher, mockPusher] [none, some "push creator failed"])
    testEnvironment "appPath" testInfo ["foundation-one"] [] "foundation-two"
    "push creator failed" [mockPusher] rfl rfl rfl


/-! ## Theorems: the filesystem -/

theorem stat_of_not_anchor (fs : Fs) (p : FPath) (h : p.isAnchor = false) :
    fs.stat p = fs.node p := by
  simp [Fs.stat, h]

theorem not_anchor_of_stat_none (fs : Fs) (p : FPath) (h : fs.stat p = none) :
    p.isAnchor = false := by
  unfold Fs.stat at h
  by_cases ha : p.isAnchor = true
  · simp [ha] at h
  · simpa using ha

theorem not_anchor_of_stat_file (fs : Fs) (p : FPath) (mode : Nat) (data : String)
    (h : fs.stat p = some (Node.file mode data)) : p.isAnchor = false := by
  unfold Fs.stat at h
  by_cases ha : p.isAnchor = true
  · simp [ha] at h
  · simpa using ha

theorem node_set_same (fs : Fs) (p : FPath) (n : Node) : (fs.set p n).node p = some n := by
  simp [Fs.set]

theorem node_set_other (fs : Fs) (p q : FPath) (n : Node) (h : q ≠ p) :
    (fs.set p n).node q = fs.node q := by
  simp [Fs.set, h]

theorem created_congr (fs fs1 : Fs) (h : fs1.umask = fs.umask) (perm : Nat) :
    fs1.created perm = fs.created perm := by
  unfold Fs.created
  rw [h]

theorem created_manifest (fs : Fs) : fs.created 0o600 = 0o600 := by
  unfold Fs.created
  have h : ∀ u : Fin 64, chmodBits 0o600 - (chmodBits 0o600 &&& u.val) = 0o600 := by decide
  exact h fs.umask

theorem created_of_perm (mode : Nat) (h : mode < 512) : Fs.empty.created mode = mode := by
  unfold Fs.created chmodBits
  have h1 : mode / 2 ^ 20 = 0 := Nat.div_eq_of_lt (by omega)
  have h2 : mode / 2 ^ 22 = 0 := Nat.div_eq_of_lt (by omega)
  have h3 : mode / 2 ^ 23 = 0 := Nat.div_eq_of_lt (by omega)
  rw [h1, h2, h3, Nat.mod_eq_of_lt h]
  simp [Fs.empty]

/-- What `MkdirAll` does when it succeeds: the directory exists afterwards, and
every path it changed was missing, is now a directory with the given mode and
is the directory or one of its ancestors. -/
theorem mkdirAllRev_ok (perm : Nat) (rooted : Bool) :
    ∀ (rev : List String) (fs fs1 : Fs),
      Fs.mkdirAllRev perm rooted rev fs = Except.ok fs1 →
      (∃ m, fs1.stat ⟨rooted, rev⟩ = some (Node.dir m)) ∧
      fs1.umask = fs.umask ∧
      ∀ q, fs1.node q = fs.node q ∨
        (fs.stat q = none ∧ fs1.node q = some (Node.dir (fs.created perm)) ∧
          q.rooted = rooted ∧ q.rev <:+ rev) := by
  intro rev
  induction rev with
  | nil =>
    intro fs fs1 h
    simp only [Fs.mkdirAllRev, Except.ok.injEq] at h
    subst h
    exact ⟨⟨0o755, by simp [Fs.stat, FPath.isAnchor]⟩, rfl, fun q => Or.inl rfl⟩
  | cons s parent ih =>
    intro fs fs1 h
    unfold Fs.mkdirAllRev at h
    cases hs : fs.stat ⟨rooted, s :: parent⟩ with
    | some n =>
      cases n with
      | dir m =>
        simp only [hs, Except.ok.injEq] at h
        subst h
        exact ⟨⟨m, hs⟩, rfl, fun q => Or.inl rfl⟩
      | file m d => simp [hs] at h
    | none =>
      simp only [hs] at h
      cases hrec : Fs.mkdirAllRev perm rooted parent fs with
      | error err => simp [hrec] at h
      | ok fs2 =>
        simp only [hrec, Except.ok.injEq] at h
        subst h
        obtain ⟨_, hum, hch⟩ := ih fs fs2 hrec
        have hna := not_anchor_of_stat_none fs _ hs
        rw [created_congr fs fs2 hum]
        refine ⟨⟨fs.created perm, ?_⟩, hum, ?_⟩
        · rw [stat_of_not_anchor _ _ hna, node_set_same]
        · intro q
          by_cases hq : q = ⟨rooted, s :: parent⟩
          · subst hq
            right
            exact ⟨hs, node_set_same _ _ _, rfl, List.suffix_refl _⟩
          · rw [node_set_other _ _ _ _ hq]
            rcases hch q with h1 | ⟨h1, h2, h3, h4⟩
            · exact Or.inl h1
            · exact Or.inr ⟨h1, h2, h3, h4.trans (List.suffix_cons s parent)⟩

/-- When `MkdirAll` fails the filesystem is as it was (the model returns no new
state), and a path it changes on success is never the path of a file. -/
theorem mkdirAllRev_keeps_files (perm : Nat) (rooted : Bool) (rev : List String) (fs fs1 : Fs)
    (h : Fs.mkdirAllRev perm rooted rev fs = Except.ok fs1) (q : FPath) (mode : Nat)
    (data : String) :
    fs1.node q = some (Node.file mode data) ↔ fs.node q = some (Node.file mode data) := by
  rcases (mkdirAllRev_ok perm rooted rev fs fs1 h).2.2 q with h1 | ⟨h1, h2, _, _⟩
  · rw [h1]
  · have hna := not_anchor_of_stat_none fs q h1
    rw [stat_of_not_anchor _ _ hna] at h1
    rw [h1, h2]
    simp

/-- What `OpenFile` (create, truncate) does when it succeeds: the path is not a
directory, holds an empty file afterwards, with the mode it had if it was a
file and with the given mode if it was missing; no other path changes. -/
theorem openFile_ok (fs fs1 : Fs) (p : FPath) (perm : Nat)
    (h : fs.OpenFile p perm = Except.ok fs1) :
    p.isAnchor = false ∧
    (∀ q, q ≠ p → fs1.node q = fs.node q) ∧
    fs1.umask = fs.umask ∧
    ((fs.node p = none ∧ fs1.node p = some (Node.file (fs.created perm) "") ∧
        ∃ m, fs.stat (Path.Dir p) = some (Node.dir m)) ∨
      (∃ mode data, fs.node p = some (Node.file mode data) ∧
        fs1.node p = some (Node.file mode ""))) := by
  unfold Fs.OpenFile at h
  cases hs : fs.stat p with
  | some n =>
    cases n with
    | dir m => simp [hs] at h
    | file m d =>
      simp only [hs, Except.ok.injEq] at h
      subst h
      have hna := not_anchor_of_stat_file fs p m d hs
      rw [stat_of_not_anchor _ _ hna] at hs
      exact ⟨hna, fun q hq => node_set_other _ _ _ _ hq, rfl,
        Or.inr ⟨m, d, hs, node_set_same _ _ _⟩⟩
  | none =>
    simp only [hs] at h
    have hna := not_anchor_of_stat_none fs p hs
    rw [stat_of_not_anchor _ _ hna] at hs
    cases hd : fs.stat (Path.Dir p) with
    | none => simp [hd] at h
    | some n =>
      cases n with
      | file m d => simp [hd] at h
      | dir m =>
        simp only [hd, Except.ok.injEq] at h
        subst h
        exact ⟨hna, fun q hq => node_set_other _ _ _ _ hq, rfl,
          Or.inl ⟨hs, node_set_same _ _ _, m, rfl⟩⟩

theorem write_other (fs : Fs) (p q : FPath) (bytes : String) (h : q ≠ p) :
    (fs.write p bytes).node q = fs.node q := by
  unfold Fs.write
  split
  · exact node_set_other _ _ _ _ h
  · rfl

theorem write_umask (fs : Fs) (p : FPath) (bytes : String) :
    (fs.write p bytes).umask = fs.umask := by
  unfold Fs.write
  split <;> rfl

theorem write_file (fs : Fs) (p : FPath) (bytes : String) (mode : Nat) (data : String)
    (h : fs.node p = some (Node.file mode data)) :
    (fs.write p bytes).node p = some (Node.file mode (data ++ bytes)) := by
  unfold Fs.write
  rw [h]
  exact node_set_same _ _ _

/-! ## Theorems: the extractor -/

/-- The three ways `unzipFile` can go: nothing is touched (the entry cannot be
opened, is a directory, or its parent directory cannot be made); the parent
directory is made and the target cannot be opened; the target is opened and the
bytes read are written to it, the result being the error of the reading. -/
theorem unzipFile_cases (fs : Fs) (destination : String) (file : ZipFile) :
    ((unzipFile fs destination file).1 = fs ∧
      ((unzipFile fs destination file).2 = none → file.IsDir = true)) ∨
    (∃ fs1, fs.MkdirAll (Path.Dir (Path.Join destination file.Name)) 0o755 = Except.ok fs1 ∧
      (unzipFile fs destination file).1 = fs1 ∧ (unzipFile fs destination file).2 ≠ none) ∨
    (∃ fs1 fs2, file.IsDir = false ∧
      fs.MkdirAll (Path.Dir (Path.Join destination file.Name)) 0o755 = Except.ok fs1 ∧
      fs1.OpenFile (Path.Join destination file.Name) file.Mode = Except.ok fs2 ∧
      (unzipFile fs destination file).1 = fs2.write (Path.Join destination file.Name) file.data ∧
      ((unzipFile fs destination file).2 = none ↔ file.readErr = none)) := by
  cases ho : file.openErr with
  | some err =>
    left
    have hu : unzipFile fs destination file
        = (fs, some ("cannot extract file from archive: " ++ err)) := by
      simp only [unzipFile, ho]
    rw [hu]; simp
  | none =>
    cases hd : file.IsDir with
    | true =>
      left
      have hu : unzipFile fs destination file = (fs, none) := by
        simp only [unzipFile, ho, hd, if_true]
      rw [hu]; simp
    | false =>
      cases hm : fs.MkdirAll (Path.Dir (Path.Join destination file.Name)) 0o755 with
      | error err =>
        left
        have hu : (unzipFile fs destination file).1 = fs ∧
            (unzipFile fs destination file).2 ≠ none := by
          simp [unzipFile, ho, hd, hm]
        exact ⟨hu.1, fun h => absurd h hu.2⟩
      | ok fs1 =>
        cases hf : fs1.OpenFile (Path.Join destination file.Name) file.Mode with
        | error err =>
          right; left
          have hu : (unzipFile fs destination file).1 = fs1 ∧
              (unzipFile fs destination file).2 ≠ none := by
            simp [unzipFile, ho, hd, hm, hf]
          exact ⟨fs1, rfl, hu.1, hu.2⟩
        | ok fs2 =>
          right; right
          refine ⟨fs1, fs2, rfl, rfl, hf, ?_, ?_⟩
          · cases hr : file.readErr <;> simp [unzipFile, ho, hd, hm, hf, hr]
          · cases hr : file.readErr <;> simp [unzipFile, ho, hd, hm, hf, hr]

theorem unzipFile_umask (fs : Fs) (destination : String) (file : ZipFile) :
    (unzipFile fs destination file).1.umask = fs.umask := by
  rcases unzipFile_cases fs destination file with ⟨h1, _⟩ | ⟨fs1, hm, h1, _⟩ |
    ⟨fs1, fs2, _, hm, hf, h1, _⟩
  · rw [h1]
  · rw [h1]; exact (mkdirAllRev_ok 0o755 _ _ fs fs1 hm).2.1
  · rw [h1, write_umask, (openFile_ok fs1 fs2 _ _ hf).2.2.1]
    exact (mkdirAllRev_ok 0o755 _ _ fs fs1 hm).2.1

/-- Making the parent directory of a path does not touch the path itself. -/
theorem mkdir_parent_keeps (fs fs1 : Fs) (t : FPath) (hna : t.isAnchor = false)
    (hm : fs.MkdirAll (Path.Dir t) 0o755 = Except.ok fs1) : fs1.node t = fs.node t := by
  rcases (mkdirAllRev_ok 0o755 _ _ fs fs1 hm).2.2 t with h | ⟨_, _, _, h4⟩
  · exact h
  · exfalso
    have hlen := h4.length_le
    have hnil : t.rev = [] := by
      cases hr : t.rev with
      | nil => rfl
      | cons a l =>
        simp only [Path.Dir] at hlen
        rw [hr] at hlen; simp at hlen
    simp [FPath.isAnchor, hnil] at hna

/-- What is at the target once it was opened and the bytes read were written:
a file with these bytes, with the mode the filesystem gives a file created with
the mode of the entry if the target was missing, and with the mode it had if it
was a file. -/
theorem target_after_copy (fs fs1 fs2 : Fs) (destination : String) (file : ZipFile)
    (hm : fs.MkdirAll (Path.Dir (Path.Join destination file.Name)) 0o755 = Except.ok fs1)
    (hf : fs1.OpenFile (Path.Join destination file.Name) file.Mode = Except.ok fs2) :
    (Path.Join destination file.Name).isAnchor = false ∧
    ∃ mode, (fs2.write (Path.Join destination file.Name) file.data).node
        (Path.Join destination file.Name) = some (Node.file mode file.data) ∧
      ((fs.node (Path.Join destination file.Name) = none ∧ mode = fs.created file.Mode) ∨
        ∃ data, fs.node (Path.Join destination file.Name) = some (Node.file mode data)) := by
  obtain ⟨hna, _, _, hself⟩ := openFile_ok fs1 fs2 _ _ hf
  have hsame := mkdir_parent_keeps fs fs1 _ hna hm
  have hum := (mkdirAllRev_ok 0o755 _ _ fs fs1 hm).2.1
  refine ⟨hna, ?_⟩
  rcases hself with ⟨h0, h2, _⟩ | ⟨mode, data, h0, h2⟩
  · refine ⟨fs.created file.Mode, ?_, Or.inl ⟨by rw [← hsame]; exact h0, rfl⟩⟩
    rw [created_congr fs fs1 hum] at h2
    have := write_file fs2 _ file.data _ _ h2
    simpa using this
  · refine ⟨mode, ?_, Or.inr ⟨data, by rw [← hsame]; exact h0⟩⟩
    have := write_file fs2 _ file.data _ _ h2
    simpa using this

/-- The effect of `unzipFile` on the filesystem, whether it succeeds or not.
A path other than the target is left as it is, or was missing and is now a
directory created with 0755, an ancestor of the target. The target is left as
it is, or the entry is a file whose bytes were written to it: then it holds
these bytes, with the mode of a file created with the mode of the entry if it
was missing and with the mode it had if it was a file. -/
theorem unzipFile_effect (fs : Fs) (destination : String) (file : ZipFile) (q : FPath) :
    (unzipFile fs destination file).1.node q = fs.node q ∨
    (fs.stat q = none ∧
      (unzipFile fs destination file).1.node q = some (Node.dir (fs.created 0o755)) ∧
      q.rooted = (Path.Join destination file.Name).rooted ∧
      q.rev <:+ (Path.Join destination file.Name).rev.tail) ∨
    (q = Path.Join destination file.Name ∧ file.IsDir = false ∧ q.isAnchor = false ∧
      ∃ mode, (unzipFile fs destination file).1.node q = some (Node.file mode file.data) ∧
        ((fs.node q = none ∧ mode = fs.created file.Mode) ∨
          ∃ data, fs.node q = some (Node.file mode data))) := by
  have hmk : ∀ fs1,
      fs.MkdirAll (Path.Dir (Path.Join destination file.Name)) 0o755 = Except.ok fs1 →
      fs1.node q = fs.node q ∨
      (fs.stat q = none ∧ fs1.node q = some (Node.dir (fs.created 0o755)) ∧
        q.rooted = (Path.Join destination file.Name).rooted ∧
        q.rev <:+ (Path.Join destination file.Name).rev.tail) := by
    intro fs1 h
    exact (mkdirAllRev_ok 0o755 _ _ fs fs1 h).2.2 q
  rcases unzipFile_cases fs destination file with ⟨h1, _⟩ | ⟨fs1, hm, h1, _⟩ |
    ⟨fs1, fs2, hd, hm, hf, h1, _⟩
  · left; rw [h1]
  · rw [h1]
    rcases hmk fs1 hm with h | h
    · exact Or.inl h
    · exact Or.inr (Or.inl h)
  · rw [h1]
    by_cases hq : q = Path.Join destination file.Name
    · right; right
      subst hq
      obtain ⟨hna, htarget⟩ := target_after_copy fs fs1 fs2 destination file hm hf
      exact ⟨rfl, hd, hna, htarget⟩
    · rw [write_other _ _ _ _ hq, (openFile_ok fs1 fs2 _ _ hf).2.1 q hq]
      rcases hmk fs1 hm with h | h
      · exact Or.inl h
      · exact Or.inr (Or.inl h)

/-- When `unzipFile` succeeds on an entry that is not a directory, the bytes of
the entry were written to the target. -/
theorem unzipFile_success (fs : Fs) (destination : String) (file : ZipFile)
    (hd : file.IsDir = false) (hok : (unzipFile fs destination file).2 = none) :
    (Path.Join destination file.Name).isAnchor = false ∧
    ∃ mode, (unzipFile fs destination file).1.node (Path.Join destination file.Name)
        = some (Node.file mode file.data) ∧
      ((fs.node (Path.Join destination file.Name) = none ∧ mode = fs.created file.Mode) ∨
        ∃ data, fs.node (Path.Join destination file.Name) = some (Node.file mode data)) := by
  rcases unzipFile_cases fs destination file with ⟨_, h2⟩ | ⟨fs1, _, _, h2⟩ |
    ⟨fs1, fs2, _, hm, hf, h1, _⟩
  · rw [h2 hok] at hd; cases hd
  · exact absurd hok h2
  · rw [h1]
    exact target_after_copy fs fs1 fs2 destination file hm hf

theorem extractAll_cons_ok (fs : Fs) (destination : String) (file : ZipFile)
    (rest : List ZipFile) (h : (unzipFile fs destination file).2 = none) :
    extractAll fs destination (file :: rest)
      = extractAll (unzipFile fs destination file).1 destination rest := by
  cases hu : unzipFile fs destination file with
  | mk fs1 r =>
    rw [hu] at h
    simp only at h
    subst h
    simp only [extractAll, hu]

theorem extractAll_cons_err (fs : Fs) (destination : String) (file : ZipFile)
    (rest : List ZipFile) (err : String) (h : (unzipFile fs destination file).2 = some err) :
    extractAll fs destination (file :: rest)
      = ((unzipFile fs destination file).1,
         some ("cannot extract file from archive: " ++ file.Name ++ ": " ++ err)) := by
  cases hu : unzipFile fs destination file with
  | mk fs1 r =>
    rw [hu] at h
    simp only at h
    subst h
    simp only [extractAll, hu]

theorem extractAll_ok_head (fs : Fs) (destination : String) (file : ZipFile)
    (rest : List ZipFile) (h : (extractAll fs destination (file :: rest)).2 = none) :
    (unzipFile fs destination file).2 = none := by
  cases hr : (unzipFile fs destination file).2 with
  | none => rfl
  | some err =>
    rw [extractAll_cons_err fs destination file rest err hr] at h
    simp at h

theorem extractAll_append (destination : String) (rest : List ZipFile) :
    ∀ (before : List ZipFile) (fs : Fs), (extractAll fs destination before).2 = none →
      extractAll fs destination (before ++ rest)
        = extractAll (extractAll fs destination before).1 destination rest := by
  intro before
  induction before with
  | nil => intro fs _; rfl
  | cons f more ih =>
    intro fs h
    have h1 := extractAll_ok_head fs destination f more h
    rw [extractAll_cons_ok fs destination f more h1] at h
    show extractAll fs destination (f :: (more ++ rest)) = _
    rw [extractAll_cons_ok fs destination f (more ++ rest) h1,
      extractAll_cons_ok fs destination f more h1]
    exact ih _ h

theorem extractAll_umask (destination : String) :
    ∀ (files : List ZipFile) (fs : Fs), (extractAll fs destination files).1.umask = fs.umask := by
  intro files
  induction files with
  | nil => intro fs; rfl
  | cons f rest ih =>
    intro fs
    cases hr : (unzipFile fs destination f).2 with
    | some err =>
      rw [extractAll_cons_err fs destination f rest err hr]
      exact unzipFile_umask fs destination f
    | none =>
      rw [extractAll_cons_ok fs destination f rest hr, ih]
      exact unzipFile_umask fs destination f

/-- The extraction loop creates directories with 0755 only and creates files
only at the targets of entries that are not directories. -/
theorem extractAll_invariant (destination : String) :
    ∀ (files : List ZipFile) (fs : Fs) (q : FPath),
      ((extractAll fs destination files).1.node q = fs.node q) ∨
      (fs.stat q = none ∧
        (extractAll fs destination files).1.node q = some (Node.dir (fs.created 0o755))) ∨
      (∃ f ∈ files, f.IsDir = false ∧ q = Path.Join destination f.Name ∧
        ∃ mode data, (extractAll fs destination files).1.node q = some (Node.file mode data)) := by
  intro files
  induction files with
  | nil => intro fs q; left; rfl
  | cons f rest ih =>
    intro fs q
    cases hr : (unzipFile fs destination f).2 with
    | some err =>
      rw [extractAll_cons_err fs destination f rest err hr]
      rcases unzipFile_effect fs destination f q with h | ⟨h1, h2, _⟩ | ⟨h1, h2, _, mode, h3, _⟩
      · exact Or.inl h
      · exact Or.inr (Or.inl ⟨h1, h2⟩)
      · exact Or.inr (Or.inr ⟨f, List.mem_cons_self _ _, h2, h1, mode, f.data, h3⟩)
    | none =>
      rw [extractAll_cons_ok fs destination f rest hr]
      rcases ih (unzipFile fs destination f).1 q with h | ⟨h1, h2⟩ | ⟨g, hg, h1, h2, h3⟩
      · rw [h]
        rcases unzipFile_effect fs destination f q with h | ⟨h1, h2, _⟩ |
          ⟨h1, h2, _, mode, h3, _⟩
        · exact Or.inl h
        · exact Or.inr (Or.inl ⟨h1, h2⟩)
        · exact Or.inr (Or.inr ⟨f, List.mem_cons_self _ _, h2, h1, mode, f.data, h3⟩)
      · have hna := not_anchor_of_stat_none _ q h1
        rw [stat_of_not_anchor _ _ hna] at h1
        rw [created_congr fs _ (unzipFile_umask fs destination f)] at h2
        rcases unzipFile_effect fs destination f q with h | ⟨_, h4, _⟩ | ⟨_, _, _, mode, h5, _⟩
        · right; left
          rw [stat_of_not_anchor _ _ hna, ← h]
          exact ⟨h1, h2⟩
        · rw [h1] at h4; cases h4
        · rw [h1] at h5; cases h5
      · exact Or.inr (Or.inr ⟨g, List.mem_cons_of_mem _ hg, h1, h2, h3⟩)

/-- A path that is the target of no file entry has the same file, or no file,
before and after the extraction loop. -/
theorem extractAll_untouched (destination : String) (t : FPath) :
    ∀ (files : List ZipFile) (fs : Fs), entriesAt destination t files = [] →
      ∀ mode data, (extractAll fs destination files).1.node t = some (Node.file mode data) ↔
        fs.node t = some (Node.file mode data) := by
  intro files fs hnone mode data
  have hno : ∀ f ∈ files, f.IsDir = false → t ≠ Path.Join destination f.Name := by
    intro f hf hd ht
    have : f ∈ entriesAt destination t files := by
      unfold entriesAt
      rw [List.mem_filter]
      exact ⟨hf, by simp [hd, ht]⟩
    rw [hnone] at this
    cases this
  rcases extractAll_invariant destination files fs t with h | ⟨h1, h2⟩ | ⟨f, hf, h1, h2, _⟩
  · rw [h]
  · have hna := not_anchor_of_stat_none _ t h1
    rw [stat_of_not_anchor _ _ hna] at h1
    rw [h1, h2]; simp
  · exact absurd h2 (hno f hf h1)

/-- After a successful extraction loop, a path that is the target of some file
entry holds the bytes of the last such entry; its mode is that of a file created
with the mode of the first such entry if the path was missing, and the one it
had if it was a file. -/
theorem extractAll_target (destination : String) (t : FPath) :
    ∀ (files : List ZipFile) (fs : Fs) (first : ZipFile),
      (extractAll fs destination files).2 = none →
      (entriesAt destination t files).head? = some first →
      t.isAnchor = false ∧
      ∃ last mode, (entriesAt destination t files).getLast? = some last ∧
        (extractAll fs destination files).1.node t = some (Node.file mode last.data) ∧
        ((fs.node t = none ∧ mode = fs.created first.Mode) ∨
          ∃ data, fs.node t = some (Node.file mode data)) := by
  intro files
  induction files with
  | nil => intro fs first _ h; simp [entriesAt] at h
  | cons f rest ih =>
    intro fs first hok hfirst
    have hf := extractAll_ok_head fs destination f rest hok
    rw [extractAll_cons_ok fs destination f rest hf] at hok ⊢
    by_cases hit : (!f.IsDir && decide (Path.Join destination f.Name = t)) = true
    · have hent : entriesAt destination t (f :: rest) = f :: entriesAt destination t rest := by
        unfold entriesAt
        exact List.filter_cons_of_pos hit
      rw [hent] at hfirst ⊢
      simp only [List.head?_cons, Option.some.injEq] at hfirst
      subst hfirst
      simp only [Bool.and_eq_true, Bool.not_eq_eq_eq_not, Bool.not_true,
        decide_eq_true_eq] at hit
      obtain ⟨hd, ht⟩ := hit
      obtain ⟨hna, mode, hnode, hmode⟩ := unzipFile_success fs destination f hd hf
      rw [ht] at hna hnode hmode
      refine ⟨hna, ?_⟩
      cases hrest : entriesAt destination t rest with
      | nil =>
        refine ⟨f, mode, rfl, ?_, hmode⟩
        rw [extractAll_untouched destination t rest _ hrest]
        exact hnode
      | cons g more =>
        have hg : (entriesAt destination t rest).head? = some g := by rw [hrest]; rfl
        obtain ⟨_, last, mode1, hlast, hnode1, hmode1⟩ := ih _ g hok hg
        rw [hrest] at hlast
        refine ⟨last, mode1, ?_, hnode1, ?_⟩
        · rw [List.getLast?_cons_cons]; exact hlast
        · rcases hmode1 with ⟨h1, _⟩ | ⟨data, h1⟩
          · rw [hnode] at h1; cases h1
          · rw [hnode] at h1
            simp only [Option.some.injEq, Node.file.injEq] at h1
            rw [← h1.1]
            exact hmode
    · have hent : entriesAt destination t (f :: rest) = entriesAt destination t rest := by
        unfold entriesAt
        exact List.filter_cons_of_neg hit
      rw [hent] at hfirst ⊢
      obtain ⟨hna, last, mode, hlast, hnode, hmode⟩ := ih _ first hok hfirst
      rw [created_congr fs _ (unzipFile_umask fs destination f)] at hmode
      refine ⟨hna, last, mode, hlast, hnode, ?_⟩
      have hkeep : (unzipFile fs destination f).1.node t = fs.node t ∨
          ∃ m, (unzipFile fs destination f).1.node t = some (Node.dir m) := by
        rcases unzipFile_effect fs destination f t with h | ⟨_, h2, _⟩ | ⟨h1, h2, _⟩
        · exact Or.inl h
        · exact Or.inr ⟨_, h2⟩
        · exfalso
          apply hit
          simp [h2, h1]
      rcases hkeep with h | ⟨m, h⟩
      · rw [h] at hmode; exact hmode
      · rcases hmode with ⟨h1, _⟩ | ⟨data, h1⟩
        · rw [h] at h1; cases h1
        · rw [h] at h1; cases h1

theorem unzip_archive_ok (fs fs0 : Fs) (source destination manifest : String)
    (files : List ZipFile)
    (h0 : fs.MkdirAll (Path.Clean destination) 0o755 = Except.ok fs0)
    (h1 : (extractAll fs0 destination files).2 = none) :
    Unzip fs source (ZipSource.archive files) destination manifest
      = writeManifest (extractAll fs0 destination files).1 destination manifest := by
  cases he : extractAll fs0 destination files with
  | mk fs1 r =>
    rw [he] at h1
    simp only at h1
    subst h1
    simp only [Unzip, h0, he]

theorem unzip_archive_err (fs fs0 : Fs) (source destination manifest err : String)
    (files : List ZipFile)
    (h0 : fs.MkdirAll (Path.Clean destination) 0o755 = Except.ok fs0)
    (h1 : (extractAll fs0 destination files).2 = some err) :
    Unzip fs source (ZipSource.archive files) destination manifest
      = ((extractAll fs0 destination files).1, some err) := by
  cases he : extractAll fs0 destination files with
  | mk fs1 r =>
    rw [he] at h1
    simp only at h1
    subst h1
    simp only [Unzip, h0, he]

/-- A successful `Unzip` has made the destination and read an archive whose
entries were all extracted. -/
theorem unzip_ok_inv (fs : Fs) (source destination manifest : String) (src : ZipSource)
    (hok : (Unzip fs source src destination manifest).2 = none) :
    ∃ fs0 files, fs.MkdirAll (Path.Clean destination) 0o755 = Except.ok fs0 ∧
      src = ZipSource.archive files ∧ (extractAll fs0 destination files).2 = none := by
  cases h0 : fs.MkdirAll (Path.Clean destination) 0o755 with
  | error err => simp [Unzip, h0] at hok
  | ok fs0 =>
    cases src with
    | openError err => simp [Unzip, h0] at hok
    | statError err => simp [Unzip, h0] at hok
    | notZip err => simp [Unzip, h0] at hok
    | archive files =>
      refine ⟨fs0, files, rfl, rfl, ?_⟩
      cases h1 : (extractAll fs0 destination files).2 with
      | none => rfl
      | some err =>
        rw [unzip_archive_err fs fs0 source destination manifest err files h0 h1] at hok
        simp at hok

theorem writeManifest_empty (fs : Fs) (destination : String) :
    writeManifest fs destination "" = (fs, none) := by
  simp [writeManifest]

/-- C1, as amended: if `Unzip(source, destination, m)` returns nil for a
non-empty manifest `m`, the file at `destination/manifest.yml` has contents
equal to `m`; its mode is 0600 when no file was at that path when the override
was written, and when a file was there (extracted from the archive, or present
beforehand and left by the archive) it keeps the mode that file had. The state
in which the override is written is the one `Unzip` leaves with an empty
manifest. -/
theorem manifest_overlay (fs : Fs) (source destination m : String) (src : ZipSource)
    (hm : m ≠ "") (hok : (Unzip fs source src destination m).2 = none) :
    (Unzip fs source src destination m).1.stat (Path.Join destination "manifest.yml")
      = some (Node.file
          (match (Unzip fs source src destination "").1.stat
              (Path.Join destination "manifest.yml") with
            | some (Node.file mode _) => mode
            | _ => 0o600) m) := by
  obtain ⟨fs0, files, h0, hsrc, h1⟩ := unzip_ok_inv fs source destination m src hok
  subst hsrc
  rw [unzip_archive_ok fs fs0 source destination m files h0 h1] at hok ⊢
  rw [unzip_archive_ok fs fs0 source destination "" files h0 h1, writeManifest_empty]
  unfold writeManifest at hok ⊢
  simp only [hm, ne_eq, not_false_eq_true, if_true] at hok ⊢
  cases hf : (extractAll fs0 destination files).1.OpenFile
      (Path.Join destination "manifest.yml") 0o600 with
  | error err => simp [hf] at hok
  | ok fs2 =>
    simp only [hf]
    obtain ⟨hna, _, _, hself⟩ := openFile_ok _ fs2 _ _ hf
    rw [stat_of_not_anchor _ _ hna, stat_of_not_anchor _ _ hna]
    rcases hself with ⟨h2, h3, _⟩ | ⟨mode, data, h2, h3⟩
    · rw [created_manifest] at h3
      rw [h2, write_file fs2 _ m _ _ h3]
      simp
    · rw [h2, write_file fs2 _ m _ _ h3]
      simp

/-- Witness of the amended C1: the archive has no manifest, the destination is
new, and the manifest is created with mode 0600. -/
theorem manifest_overlay_witness :
    (Unzip Fs.empty "app.zip" (ZipSource.archive plainArchive) "app" "new").2 = none ∧
    (Unzip Fs.empty "app.zip" (ZipSource.archive plainArchive) "app" "new").1.stat
        (Path.Join "app" "manifest.yml")
      = some (Node.file
          (match (Unzip Fs.empty "app.zip" (ZipSource.archive plainArchive) "app" "").1.stat
              (Path.Join "app" "manifest.yml") with
            | some (Node.file mode _) => mode
            | _ => 0o600) "new") :=
  ⟨by decide,
   manifest_overlay Fs.empty "app.zip" "app" "new" (ZipSource.archive plainArchive)
     (by decide) (by decide)⟩

/-- C1 as stated fails: when the archive has its own `manifest.yml` with mode
0644, or when `app/manifest.yml` exists beforehand with mode 0640, `Unzip`
returns nil and the manifest has the new contents but keeps the old mode, not
0600. -/
theorem manifest_mode_counterexample :
    (Unzip Fs.empty "app.zip" (ZipSource.archive manifestArchive) "app" "new").2 = none ∧
    (Unzip Fs.empty "app.zip" (ZipSource.archive manifestArchive) "app" "new").1.stat
        (Path.Join "app" "manifest.yml") = some (Node.file 0o644 "new") ∧
    (Unzip manifestPresent "app.zip" (ZipSource.archive []) "app" "new").2 = none ∧
    (Unzip manifestPresent "app.zip" (ZipSource.archive []) "app" "new").1.stat
        (Path.Join "app" "manifest.yml") = some (Node.file 0o640 "new") := by
  decide

/-- C2, as amended: if `Unzip(source, destination, "")` returns nil on an
initially empty filesystem, then for every entry `e` of the archive that is not
a directory a file exists at `destination/e.Name`. Its contents are the bytes
of the last file entry of the archive with that target path. Its mode is the
mode the filesystem gives a file created with the recorded mode of the first
such entry: the permission bits (and setuid, setgid, sticky) of that mode,
without its type bits, less the umask. So contents and mode are `e`'s own bytes
and the created form of `e`'s mode when `e` is the only file entry with that
path, and the mode is `e`'s recorded mode itself when in addition that mode has
permission bits only and the filesystem has no umask. Every directory in the
resulting filesystem has the mode of a directory created with 0755 (0755 less
the umask), and every file in it is at the target path of an entry that is not
a directory: a directory entry produces no file. -/
theorem unzip_round_trip (umask : Fin 64) (source destination : String)
    (files : List ZipFile)
    (hok : (Unzip (Fs.blank umask) source (ZipSource.archive files) destination "").2 = none) :
    (∀ f ∈ files, f.IsDir = false →
      ∃ first last,
        (entriesAt destination (Path.Join destination f.Name) files).head? = some first ∧
        (entriesAt destination (Path.Join destination f.Name) files).getLast? = some last ∧
        (Unzip (Fs.blank umask) source (ZipSource.archive files) destination "").1.stat
            (Path.Join destination f.Name)
          = some (Node.file ((Fs.blank umask).created first.Mode) last.data)) ∧
    (∀ f ∈ files, f.IsDir = false →
      entriesAt destination (Path.Join destination f.Name) files = [f] →
      (Unzip (Fs.blank umask) source (ZipSource.archive files) destination "").1.stat
          (Path.Join destination f.Name)
        = some (Node.file ((Fs.blank umask).created f.Mode) f.data)) ∧
    (∀ f ∈ files, f.IsDir = false → umask = 0 → f.Mode < 512 →
      entriesAt destination (Path.Join destination f.Name) files = [f] →
      (Unzip (Fs.blank umask) source (ZipSource.archive files) destination "").1.stat
          (Path.Join destination f.Name)
        = some (Node.file f.Mode f.data)) ∧
    (∀ p mode,
      (Unzip (Fs.blank umask) source (ZipSource.archive files) destination "").1.node p
        = some (Node.dir mode) → mode = (Fs.blank umask).created 0o755) ∧
    (∀ p mode data,
      (Unzip (Fs.blank umask) source (ZipSource.archive files) destination "").1.node p
        = some (Node.file mode data) →
      ∃ f ∈ files, f.IsDir = false ∧ p = Path.Join destination f.Name) := by
  obtain ⟨fs0, files1, h0, hsrc, h1⟩ := unzip_ok_inv _ source destination "" _ hok
  simp only [ZipSource.archive.injEq] at hsrc
  subst hsrc
  rw [unzip_archive_ok _ fs0 source destination "" files h0 h1, writeManifest_empty]
  obtain ⟨_, hum, hch⟩ := mkdirAllRev_ok 0o755 _ _ _ fs0 h0
  have hfs0 : ∀ q, fs0.node q = none ∨
      fs0.node q = some (Node.dir ((Fs.blank umask).created 0o755)) := by
    intro q
    rcases hch q with h | ⟨_, h, _⟩
    · exact Or.inl h
    · exact Or.inr h
  have hnofile : ∀ q mode data, fs0.node q ≠ some (Node.file mode data) := by
    intro q mode data h
    rcases hfs0 q with h2 | h2 <;> rw [h2] at h <;> cases h
  have hmain : ∀ f ∈ files, f.IsDir = false →
      ∃ first last,
        (entriesAt destination (Path.Join destination f.Name) files).head? = some first ∧
        (entriesAt destination (Path.Join destination f.Name) files).getLast? = some last ∧
        (extractAll fs0 destination files).1.stat (Path.Join destination f.Name)
          = some (Node.file ((Fs.blank umask).created first.Mode) last.data) := by
    intro f hf hd
    have hmem : f ∈ entriesAt destination (Path.Join destination f.Name) files := by
      unfold entriesAt
      rw [List.mem_filter]
      exact ⟨hf, by simp [hd]⟩
    cases hent : entriesAt destination (Path.Join destination f.Name) files with
    | nil => rw [hent] at hmem; cases hmem
    | cons first more =>
      have hhead : (entriesAt destination (Path.Join destination f.Name) files).head?
          = some first := by rw [hent]; rfl
      obtain ⟨hna, last, mode, hlast, hnode, hmode⟩ :=
        extractAll_target destination _ files fs0 first h1 hhead
      rw [hent] at hlast
      refine ⟨first, last, rfl, hlast, ?_⟩
      rw [stat_of_not_anchor _ _ hna, hnode]
      rcases hmode with ⟨_, h3⟩ | ⟨data, h3⟩
      · rw [h3, created_congr _ fs0 hum]
      · exact absurd h3 (hnofile _ _ _)
  have hone : ∀ f ∈ files, f.IsDir = false →
      entriesAt destination (Path.Join destination f.Name) files = [f] →
      (extractAll fs0 destination files).1.stat (Path.Join destination f.Name)
        = some (Node.file ((Fs.blank umask).created f.Mode) f.data) := by
    intro f hf hd hsingle
    obtain ⟨first, last, h2, h3, h4⟩ := hmain f hf hd
    rw [hsingle] at h2 h3
    simp only [List.head?_cons, Option.some.injEq] at h2
    simp only [List.getLast?_singleton, Option.some.injEq] at h3
    rw [h4, ← h2, ← h3]
  refine ⟨hmain, hone, ?_, ?_, ?_⟩
  · intro f hf hd hu hperm hsingle
    rw [hone f hf hd hsingle]
    subst hu
    have : (Fs.blank 0).created f.Mode = f.Mode := created_of_perm f.Mode hperm
    rw [this]
  · intro p mode hp
    rcases extractAll_invariant destination files fs0 p with h | ⟨_, h⟩ | ⟨_, _, _, _, m, d, h⟩
    · rw [h] at hp
      rcases hfs0 p with h2 | h2 <;> rw [h2] at hp
      · cases hp
      · simp only [Option.some.injEq, Node.dir.injEq] at hp
        exact hp.symm
    · rw [h, created_congr _ fs0 hum] at hp
      simp only [Option.some.injEq, Node.dir.injEq] at hp
      exact hp.symm
    · rw [h] at hp; cases hp
  · intro p mode data hp
    rcases extractAll_invariant destination files fs0 p with h | ⟨_, h⟩ | ⟨f, hf, hd, ht, _⟩
    · rw [h] at hp
      exact absurd hp (hnofile _ _ _)
    · rw [h] at hp; cases hp
    · exact ⟨f, hf, hd, ht⟩

/-- Witness of the amended C2: an archive with a directory entry and a file,
extracted on an empty filesystem without umask. -/
theorem unzip_round_trip_witness :
    (Unzip (Fs.blank 0) "app.zip" (ZipSource.archive plainArchive) "out" "").2 = none ∧
    (Unzip (Fs.blank 0) "app.zip" (ZipSource.archive plainArchive) "out" "").1.stat
        (Path.Join "out" "lib/a.txt") = some (Node.file 0o640 "A") :=
  ⟨by decide,
   (unzip_round_trip 0 "app.zip" "out" plainArchive (by decide)).2.2.1
     ⟨"lib/a.txt", 0o640, none, "A", none⟩ (by decide) (by decide) rfl (by decide)
     (by decide)⟩

/-- C2 as stated fails in three ways, `Unzip` returning nil on an empty
filesystem each time. With two file entries of the same name the file has the
bytes of the second entry and the mode of the first. A symbolic link entry
(mode `ModeSymlink|0777`) becomes a regular file with mode 0777, and under the
umask 022 with mode 0755, not the recorded mode. Under the umask 022 an entry
with mode 0666 becomes a file with mode 0644, and under the umask 077 the
directories are created with mode 0700, not 0755. -/
theorem duplicate_entries_counterexample :
    (Unzip Fs.empty "app.zip" (ZipSource.archive twiceArchive) "out" "").2 = none ∧
    (Unzip Fs.empty "app.zip" (ZipSource.archive twiceArchive) "out" "").1.stat
        (Path.Join "out" "a") = some (Node.file 0o644 "two") ∧
    (∃ e ∈ twiceArchive, e.IsDir = false ∧
      (Unzip Fs.empty "app.zip" (ZipSource.archive twiceArchive) "out" "").1.stat
          (Path.Join "out" e.Name) ≠ some (Node.file e.Mode e.data)) ∧
    (Unzip Fs.empty "app.zip" (ZipSource.archive modesArchive) "out" "").2 = none ∧
    (Unzip Fs.empty "app.zip" (ZipSource.archive modesArchive) "out" "").1.stat
        (Path.Join "out" "link") = some (Node.file 0o777 "target") ∧
    (Unzip (Fs.blank 0o22) "app.zip" (ZipSource.archive modesArchive) "out" "").2 = none ∧
    (Unzip (Fs.blank 0o22) "app.zip" (ZipSource.archive modesArchive) "out" "").1.stat
        (Path.Join "out" "link") = some (Node.file 0o755 "target") ∧
    (Unzip (Fs.blank 0o22) "app.zip" (ZipSource.archive modesArchive) "out" "").1.stat
        (Path.Join "out" "lib/w.txt") = some (Node.file 0o644 "W") ∧
    (Unzip (Fs.blank 0o77) "app.zip" (ZipSource.archive modesArchive) "out" "").2 = none ∧
    (Unzip (Fs.blank 0o77) "app.zip" (ZipSource.archive modesArchive) "out" "").1.node
        ⟨false, ["lib", "out"]⟩ = some (Node.dir 0o700) := by
  refine ⟨by decide, by decide, ⟨⟨"a", 0o644, none, "one", none⟩, by decide, by decide,
    by decide⟩, by decide, by decide, by decide, by decide, by decide, by decide, by decide⟩

/-- C9, as amended: if the entries before `e` are extracted without error and
extracting `e` fails with `err` (opening the entry, creating its parent
directory, opening the target file or copying its bytes), then `Unzip` returns
the error `cannot extract file from archive: <e.Name>: <err>` and leaves the
filesystem as the failed extraction of `e` left it: no entry after `e` is
extracted and the manifest override is not written, whatever the manifest
argument. Every file at a path other than the target of `e` is left as it was,
and so is the file at the target of `e` unless the failure is in copying the
bytes. When the failure is in copying the bytes (the entry, its parent
directory and the target were opened), the error is the read error
`cannot write to file: <target>: <x>` and the target is a file that holds
exactly the bytes read before the error, with the mode it had if it was a file
(an earlier entry with the same path has then lost its bytes) and with the mode
of a file created with the mode of `e` if it was missing. -/
theorem extraction_failure_aborts (fs fs0 : Fs) (source destination manifest : String)
    (before after : List ZipFile) (e : ZipFile) (err : String)
    (h0 : fs.MkdirAll (Path.Clean destination) 0o755 = Except.ok fs0)
    (hbefore : (extractAll fs0 destination before).2 = none)
    (hfail : (unzipFile (extractAll fs0 destination before).1 destination e).2 = some err) :
    Unzip fs source (ZipSource.archive (before ++ e :: after)) destination manifest
      = ((unzipFile (extractAll fs0 destination before).1 destination e).1,
         some ("cannot extract file from archive: " ++ e.Name ++ ": " ++ err)) ∧
    (∀ p mode data, (p ≠ Path.Join destination e.Name ∨ e.readErr = none) →
      (extractAll fs0 destination before).1.node p = some (Node.file mode data) →
      (unzipFile (extractAll fs0 destination before).1 destination e).1.node p
        = some (Node.file mode data)) ∧
    (∀ fsd fso, e.openErr = none →
      (extractAll fs0 destination before).1.MkdirAll
        (Path.Dir (Path.Join destination e.Name)) 0o755 = Except.ok fsd →
      fsd.OpenFile (Path.Join destination e.Name) e.Mode = Except.ok fso →
      ∃ x mode, e.readErr = some x ∧
        err = "cannot write to file: " ++ (Path.Join destination e.Name).render ++ ": " ++ x ∧
        (unzipFile (extractAll fs0 destination before).1 destination e).1.node
            (Path.Join destination e.Name) = some (Node.file mode e.data) ∧
        (((extractAll fs0 destination before).1.node (Path.Join destination e.Name) = none ∧
            mode = (extractAll fs0 destination before).1.created e.Mode) ∨
          ∃ data, (extractAll fs0 destination before).1.node (Path.Join destination e.Name)
            = some (Node.file mode data))) := by
  refine ⟨?_, ?_, ?_⟩
  · have h1 : (extractAll fs0 destination (before ++ e :: after)).2
        = some ("cannot extract file from archive: " ++ e.Name ++ ": " ++ err) := by
      rw [extractAll_append destination (e :: after) before fs0 hbefore,
        extractAll_cons_err _ destination e after err hfail]
    rw [unzip_archive_err fs fs0 source destination manifest _ _ h0 h1,
      extractAll_append destination (e :: after) before fs0 hbefore,
      extractAll_cons_err _ destination e after err hfail]
  · intro p mode data hp hnode
    rcases unzipFile_cases (extractAll fs0 destination before).1 destination e with
      ⟨h1, _⟩ | ⟨fs1, hm, h1, _⟩ | ⟨fs1, fs2, _, hm, hf, h1, h2⟩
    · rw [h1]; exact hnode
    · rw [h1]
      exact (mkdirAllRev_keeps_files _ _ _ _ fs1 hm p mode data).2 hnode
    · have hread : e.readErr ≠ none := by
        intro hr
        rw [h2.2 hr] at hfail
        cases hfail
      have hp1 : p ≠ Path.Join destination e.Name := by
        rcases hp with h | h
        · exact h
        · exact absurd h hread
      rw [h1, write_other _ _ _ _ hp1, (openFile_ok fs1 fs2 _ _ hf).2.1 p hp1]
      exact (mkdirAllRev_keeps_files _ _ _ _ fs1 hm p mode data).2 hnode
  · intro fsd fso ho hm hf
    have hd : e.IsDir = false := by
      cases hd : e.IsDir with
      | false => rfl
      | true => simp [unzipFile, ho, hd] at hfail
    obtain ⟨_, mode, hnode, hmode⟩ :=
      target_after_copy (extractAll fs0 destination before).1 fsd fso destination e hm hf
    cases hr : e.readErr with
    | none => simp [unzipFile, ho, hd, hm, hf, hr] at hfail
    | some x =>
      have hu : unzipFile (extractAll fs0 destination before).1 destination e
          = (fso.write (Path.Join destination e.Name) e.data,
             some ("cannot write to file: " ++ (Path.Join destination e.Name).render ++ ": "
               ++ x)) := by
        simp [unzipFile, ho, hd, hm, hf, hr]
      rw [hu] at hfail ⊢
      simp only [Option.some.injEq] at hfail
      exact ⟨x, mode, rfl, hfail.symm, hnode, hmode⟩

/-- Witness of the amended C9: the second entry of `brokenArchive` has the
target of the first and cannot be read to its end; the target is left
truncated. -/
theorem extraction_failure_aborts_witness :
    Unzip Fs.empty "app.zip" (ZipSource.archive brokenArchive) "out" "new"
      = ((unzipFile
            (extractAll (Fs.empty.set ⟨false, ["out"]⟩ (Node.dir 0o755)) "out"
              [⟨"a", 0o644, none, "hello", none⟩]).1 "out"
            ⟨"./a", 0o644, none, "", some "zip: checksum error"⟩).1,
         some ("cannot extract file from archive: " ++ "./a" ++ ": "
           ++ "cannot write to file: out/a: zip: checksum error")) ∧
    (Unzip Fs.empty "app.zip" (ZipSource.archive brokenArchive) "out" "new").1.node
        (Path.Join "out" "./a") = some (Node.file 0o644 "") :=
  ⟨(extraction_failure_aborts Fs.empty (Fs.empty.set ⟨false, ["out"]⟩ (Node.dir 0o755))
      "app.zip" "out" "new" [⟨"a", 0o644, none, "hello", none⟩]
      [⟨"b", 0o644, none, "later", none⟩] ⟨"./a", 0o644, none, "", some "zip: checksum error"⟩
      "cannot write to file: out/a: zip: checksum error" rfl (by decide) (by decide)).1,
   by decide⟩

/-- C9 as stated fails on `brokenArchive`: its first entry `a` is extracted, its
second entry `./a` has the same target and fails while its bytes are copied,
after the target was truncated. `Unzip` returns an error, and the file written
for the first entry no longer has its bytes. -/
theorem truncated_file_counterexample :
    (unzipFile (Fs.empty.set ⟨false, ["out"]⟩ (Node.dir 0o755)) "out"
        ⟨"a", 0o644, none, "hello", none⟩).2 = none ∧
    (unzipFile (Fs.empty.set ⟨false, ["out"]⟩ (Node.dir 0o755)) "out"
        ⟨"a", 0o644, none, "hello", none⟩).1.stat (Path.Join "out" "a")
      = some (Node.file 0o644 "hello") ∧
    (Unzip Fs.empty "app.zip" (ZipSource.archive brokenArchive) "out" "").2
      = some "cannot extract file from archive: ./a: cannot write to file: out/a: zip: checksum error" ∧
    (Unzip Fs.empty "app.zip" (ZipSource.archive brokenArchive) "out" "").1.stat
        (Path.Join "out" "a") = some (Node.file 0o644 "") := by
  decide

/-! ## Theorems: paths -/

theorem splitSlash_ne_nil (cs : List Char) : Path.splitSlash cs ≠ [] := by
  cases cs with
  | nil => simp [Path.splitSlash]
  | cons c rest =>
    unfold Path.splitSlash
    cases h : Path.splitSlash rest with
    | nil => simp
    | cons seg more => by_cases hc : c = '/' <;> simp [hc]

theorem splitSlash_append (a b : List Char) :
    Path.splitSlash (a ++ '/' :: b) = Path.splitSlash a ++ Path.splitSlash b := by
  induction a with
  | nil =>
    cases hb : Path.splitSlash b with
    | nil => exact absurd hb (splitSlash_ne_nil b)
    | cons seg more => simp [Path.splitSlash, hb]
  | cons c rest ih =>
    cases hr : Path.splitSlash rest with
    | nil => exact absurd hr (splitSlash_ne_nil rest)
    | cons seg more =>
      have h1 : Path.splitSlash (c :: rest ++ '/' :: b)
          = match Path.splitSlash (rest ++ '/' :: b) with
            | [] => [[c]]
            | seg :: rest => if c = '/' then [] :: seg :: rest else (c :: seg) :: rest := rfl
      have h2 : Path.splitSlash (c :: rest)
          = match Path.splitSlash rest with
            | [] => [[c]]
            | seg :: rest => if c = '/' then [] :: seg :: rest else (c :: seg) :: rest := rfl
      rw [h1, h2, ih, hr]
      by_cases hc : c = '/' <;> simp [hc]

theorem elements_join (a b : String) :
    Path.elements (a ++ "/" ++ b) = Path.elements a ++ Path.elements b := by
  unfold Path.elements
  have : (a ++ "/" ++ b).data = a.data ++ '/' :: b.data := by
    simp [String.data_append]
  rw [this, splitSlash_append, List.map_append]

theorem within_iff (root p : FPath) :
    FPath.within root p ↔
      root.rooted = p.rooted ∧ ∃ extra : List String, p.rev = extra ++ root.rev ∧ ".." ∉ extra := by
  unfold FPath.within
  constructor
  · rintro ⟨h1, ⟨t, ht⟩, h3⟩
    refine ⟨h1, t, ht.symm, ?_⟩
    rw [← ht] at h3
    simpa using h3
  · rintro ⟨h1, extra, h2, h3⟩
    refine ⟨h1, ⟨extra, h2.symm⟩, ?_⟩
    rw [h2]
    simpa using h3

theorem step_extends (rooted : Bool) (stack : List String) (elem : String) (h : elem ≠ "..") :
    ∃ extra : List String, Path.step rooted stack elem = extra ++ stack ∧ ".." ∉ extra := by
  unfold Path.step
  by_cases h1 : elem = "" ∨ elem = "."
  · exact ⟨[], by simp [h1], by simp⟩
  · refine ⟨[elem], by simp [h1, h], ?_⟩
    simp only [List.mem_singleton]
    exact fun he => h he.symm

theorem foldl_step_extends (rooted : Bool) :
    ∀ (elems : List String) (stack : List String), ".." ∉ elems →
      ∃ extra : List String,
        elems.foldl (Path.step rooted) stack = extra ++ stack ∧ ".." ∉ extra := by
  intro elems
  induction elems with
  | nil => intro stack _; exact ⟨[], rfl, by simp⟩
  | cons e rest ih =>
    intro stack h
    simp only [List.mem_cons, not_or] at h
    simp only [List.foldl_cons]
    obtain ⟨x1, hx1, hn1⟩ := step_extends rooted stack e (fun he => h.1 he.symm)
    obtain ⟨x2, hx2, hn2⟩ := ih (Path.step rooted stack e) h.2
    refine ⟨x2 ++ x1, ?_, ?_⟩
    · rw [hx2, hx1, List.append_assoc]
    · simp only [List.mem_append, not_or]
      exact ⟨hn2, hn1⟩

/-- Joining a name without `..` elements to the destination gives a path within
the destination; when the destination is empty the name must not be rooted. -/
theorem join_within (destination name : String) (hdd : Path.noDotDot name)
    (hroot : destination = "" → name.data.head? ≠ some '/') :
    FPath.within (Path.Clean destination) (Path.Join destination name) := by
  rw [within_iff]
  unfold Path.Join
  by_cases hd : destination = ""
  · subst hd
    have hr := hroot rfl
    simp only [if_true]
    constructor
    · simp only [Path.Clean]
      have : ("" : String).data.head? = none := rfl
      rw [this]
      cases hh : name.data.head? with
      | none => rfl
      | some c =>
        have : c ≠ '/' := by
          intro hc; rw [hh, hc] at hr; exact hr rfl
        simp [this]
    · have h0 : (Path.Clean "").rev = [] := by decide
      rw [h0]
      obtain ⟨extra, hx, hn⟩ := foldl_step_extends (name.data.head? == some '/')
        (Path.elements name) [] hdd
      exact ⟨extra, by simpa [Path.Clean] using hx, hn⟩
  · simp only [hd, if_false]
    have hdata : destination.data ≠ [] := by
      intro h
      apply hd
      cases destination with
      | mk data => simp only at h; subst h; rfl
    have hhead : (destination ++ "/" ++ name).data.head? = destination.data.head? := by
      simp only [String.data_append]
      cases hdd : destination.data with
      | nil => exact absurd hdd hdata
      | cons c rest => rfl
    constructor
    · simp only [Path.Clean, hhead]
    · simp only [Path.Clean, hhead, elements_join, List.foldl_append]
      exact foldl_step_extends _ _ _ hdd

/-! ## Theorems: well-formed filesystems -/

theorem stat_set_other (fs : Fs) (p q : FPath) (n : Node) (h : q ≠ p) :
    (fs.set p n).stat q = fs.stat q := by
  unfold Fs.stat
  rw [node_set_other _ _ _ _ h]

theorem wf_set_dir (fs : Fs) (p : FPath) (perm : Nat) (hwf : fs.WF)
    (hparent : ∃ m, fs.stat (Path.Dir p) = some (Node.dir m)) (hp : p.rev ≠ []) :
    (fs.set p (Node.dir perm)).WF := by
  intro q hq
  have hne : Path.Dir p ≠ p := by
    intro h
    have : (Path.Dir p).rev.length = p.rev.length := by rw [h]
    cases hr : p.rev with
    | nil => exact hp hr
    | cons a l => simp [Path.Dir, hr] at this
  by_cases hqp : q = p
  · subst hqp
    rw [stat_set_other _ _ _ _ hne]
    exact hparent
  · rw [node_set_other _ _ _ _ hqp] at hq
    obtain ⟨m, hm⟩ := hwf q hq
    by_cases hdq : Path.Dir q = p
    · rw [hdq]
      unfold Fs.stat
      by_cases ha : p.isAnchor = true
      · exact ⟨0o755, by simp [ha]⟩
      · exact ⟨perm, by simp [ha, node_set_same]⟩
    · rw [stat_set_other _ _ _ _ hdq]
      exact ⟨m, hm⟩

theorem mkdirAllRev_wf (perm : Nat) (rooted : Bool) :
    ∀ (rev : List String) (fs fs1 : Fs), fs.WF →
      Fs.mkdirAllRev perm rooted rev fs = Except.ok fs1 → fs1.WF := by
  intro rev
  induction rev with
  | nil =>
    intro fs fs1 hwf h
    simp only [Fs.mkdirAllRev, Except.ok.injEq] at h
    subst h; exact hwf
  | cons s parent ih =>
    intro fs fs1 hwf h
    unfold Fs.mkdirAllRev at h
    cases hs : fs.stat ⟨rooted, s :: parent⟩ with
    | some n =>
      cases n with
      | dir m =>
        simp only [hs, Except.ok.injEq] at h
        subst h; exact hwf
      | file m d => simp [hs] at h
    | none =>
      simp only [hs] at h
      cases hrec : Fs.mkdirAllRev perm rooted parent fs with
      | error err => simp [hrec] at h
      | ok fs2 =>
        simp only [hrec, Except.ok.injEq] at h
        subst h
        have hwf2 := ih fs fs2 hwf hrec
        obtain ⟨hdir, _⟩ := mkdirAllRev_ok perm rooted parent fs fs2 hrec
        exact wf_set_dir fs2 ⟨rooted, s :: parent⟩ _ hwf2 hdir (by simp)

/-- In a well-formed filesystem the ancestors of an existing path exist. -/
theorem ancestors_exist (fs : Fs) (hwf : fs.WF) (rooted : Bool) :
    ∀ (rev : List String), fs.stat ⟨rooted, rev⟩ ≠ none →
      ∀ anc : List String, anc <:+ rev → fs.stat ⟨rooted, anc⟩ ≠ none := by
  intro rev
  induction rev with
  | nil =>
    intro h anc ha
    rw [List.suffix_nil] at ha
    subst ha; exact h
  | cons s parent ih =>
    intro h anc ha
    rw [List.suffix_cons_iff] at ha
    rcases ha with ha | ha
    · subst ha; exact h
    · apply ih _ anc ha
      by_cases hanchor : (FPath.mk rooted (s :: parent)).isAnchor = true
      · have : (FPath.mk rooted parent).isAnchor = true := by
          simp only [FPath.isAnchor, List.all_cons, Bool.and_eq_true] at hanchor ⊢
          exact hanchor.2
        simp [Fs.stat, this]
      · have hnode : fs.node ⟨rooted, s :: parent⟩ ≠ none := by
          simpa [Fs.stat, hanchor] using h
        obtain ⟨m, hm⟩ := hwf _ hnode
        simp only [Path.Dir, List.tail_cons] at hm
        rw [hm]; simp

/-! ## Theorems: extraction and the destination -/

theorem unzipFile_dir (fs : Fs) (destination : String) (file : ZipFile)
    (hd : file.IsDir = true) : (unzipFile fs destination file).1 = fs := by
  cases ho : file.openErr <;> simp [unzipFile, ho, hd]

theorem unzipFile_keeps_existing (fs : Fs) (destination : String) (file : ZipFile) (q : FPath)
    (h : fs.stat q ≠ none) : (unzipFile fs destination file).1.stat q ≠ none := by
  unfold Fs.stat at h ⊢
  by_cases ha : q.isAnchor = true
  · simp [ha]
  · simp only [ha, Bool.false_eq_true, if_false] at h ⊢
    rcases unzipFile_effect fs destination file q with h1 | ⟨_, h1, _⟩ | ⟨_, _, _, m, h1, _⟩
    · rw [h1]; exact h
    · rw [h1]; simp
    · rw [h1]; simp

/-- When the destination and its ancestors exist, `unzipFile` of an entry whose
target is within the destination changes paths within the destination only. -/
theorem unzipFile_within (fs : Fs) (destination : String) (file : ZipFile)
    (hexist : ∀ anc : List String, anc <:+ (Path.Clean destination).rev →
      fs.stat ⟨(Path.Clean destination).rooted, anc⟩ ≠ none)
    (hname : file.IsDir = false →
      FPath.within (Path.Clean destination) (Path.Join destination file.Name))
    (q : FPath) (hq : (unzipFile fs destination file).1.node q ≠ fs.node q) :
    FPath.within (Path.Clean destination) q := by
  rcases unzipFile_effect fs destination file q with h | ⟨h1, _, h3, h4⟩ | ⟨h1, h2, _⟩
  · exact absurd h hq
  · have hdir : file.IsDir = false := by
      cases hd : file.IsDir with
      | false => rfl
      | true =>
        exfalso
        apply hq
        rw [unzipFile_dir fs destination file hd]
    obtain ⟨hw1, extra, hw2, hw3⟩ := (within_iff _ _).1 (hname hdir)
    have hq2 : q.rev <:+ (Path.Join destination file.Name).rev :=
      h4.trans (List.tail_suffix _)
    have hdsuf : (Path.Clean destination).rev <:+ (Path.Join destination file.Name).rev :=
      ⟨extra, hw2.symm⟩
    rcases List.suffix_or_suffix_of_suffix hdsuf hq2 with h5 | h5
    · rw [within_iff]
      refine ⟨hw1.trans h3.symm, ?_⟩
      obtain ⟨x, hx⟩ := h5
      obtain ⟨u, hu⟩ := hq2
      refine ⟨x, hx.symm, ?_⟩
      have hux : u ++ x = extra := by
        have : (u ++ x) ++ (Path.Clean destination).rev = extra ++ (Path.Clean destination).rev := by
          rw [List.append_assoc, hx, hu, hw2]
        exact List.append_cancel_right this
      intro hmem
      apply hw3
      rw [← hux]
      exact List.mem_append_right _ hmem
    · exfalso
      have := hexist q.rev h5
      rw [hw1, ← h3] at this
      exact this h1
  · rw [h1]; exact hname h2

theorem extractAll_within (destination : String) :
    ∀ (files : List ZipFile) (fs : Fs),
      (∀ anc : List String, anc <:+ (Path.Clean destination).rev →
        fs.stat ⟨(Path.Clean destination).rooted, anc⟩ ≠ none) →
      (∀ f ∈ files, f.IsDir = false →
        FPath.within (Path.Clean destination) (Path.Join destination f.Name)) →
      ∀ q, (extractAll fs destination files).1.node q ≠ fs.node q →
        FPath.within (Path.Clean destination) q := by
  intro files
  induction files with
  | nil => intro fs _ _ q hq; exact absurd rfl hq
  | cons f rest ih =>
    intro fs hexist hnames q hq
    have hf := unzipFile_within fs destination f hexist
      (hnames f (List.mem_cons_self _ _)) q
    cases hr : (unzipFile fs destination f).2 with
    | some err =>
      rw [extractAll_cons_err fs destination f rest err hr] at hq
      exact hf hq
    | none =>
      rw [extractAll_cons_ok fs destination f rest hr] at hq
      by_cases hstep : (unzipFile fs destination f).1.node q = fs.node q
      · rw [← hstep] at hq
        exact ih _ (fun anc ha => unzipFile_keeps_existing fs destination f _ (hexist anc ha))
          (fun g hg => hnames g (List.mem_cons_of_mem _ hg)) q hq
      · exact hf hstep

theorem writeManifest_within (fs : Fs) (destination manifest : String) (q : FPath)
    (hq : (writeManifest fs destination manifest).1.node q ≠ fs.node q) :
    FPath.within (Path.Clean destination) q := by
  have hin : FPath.within (Path.Clean destination) (Path.Join destination "manifest.yml") :=
    join_within destination "manifest.yml" (by decide) (fun _ => by decide)
  by_cases hqt : q = Path.Join destination "manifest.yml"
  · rw [hqt]; exact hin
  · exfalso
    apply hq
    unfold writeManifest
    by_cases hm : manifest = ""
    · simp [hm]
    · simp only [ne_eq, hm, not_false_eq_true, if_true]
      cases hf : fs.OpenFile (Path.Join destination "manifest.yml") 0o600 with
      | error err => rfl
      | ok fs1 =>
        simp only
        rw [write_other _ _ _ _ hqt, (openFile_ok fs fs1 _ _ hf).2.1 q hqt]

/-- C3, as amended: `Unzip` neither rejects nor sanitizes an entry whose name,
once joined to the destination and normalized, escapes the destination: it
writes it there. When no file entry of the archive escapes the destination (its
joined, normalized path is the destination or lies beneath it), then on a
well-formed filesystem every path that `Unzip` creates or writes after it has
made the destination, directories and files, the manifest included, is the
destination itself or lies beneath it. -/
theorem extraction_stays_within_destination (fs fs0 : Fs)
    (source destination manifest : String) (files : List ZipFile)
    (hwf : fs.WF)
    (h0 : fs.MkdirAll (Path.Clean destination) 0o755 = Except.ok fs0)
    (hnames : ∀ f ∈ files, f.IsDir = false →
      FPath.within (Path.Clean destination) (Path.Join destination f.Name))
    (p : FPath)
    (hp : (Unzip fs source (ZipSource.archive files) destination manifest).1.node p
      ≠ fs0.node p) :
    FPath.within (Path.Clean destination) p := by
  have hwf0 := mkdirAllRev_wf 0o755 _ _ fs fs0 hwf h0
  obtain ⟨⟨m, hdest⟩, _⟩ := mkdirAllRev_ok 0o755 _ _ fs fs0 h0
  have hexist : ∀ anc : List String, anc <:+ (Path.Clean destination).rev →
      fs0.stat ⟨(Path.Clean destination).rooted, anc⟩ ≠ none :=
    ancestors_exist fs0 hwf0 _ _ (by rw [hdest]; simp)
  have hloop := extractAll_within destination files fs0 hexist hnames p
  cases h1 : (extractAll fs0 destination files).2 with
  | some err =>
    rw [unzip_archive_err fs fs0 source destination manifest err files h0 h1] at hp
    exact hloop hp
  | none =>
    rw [unzip_archive_ok fs fs0 source destination manifest files h0 h1] at hp
    by_cases hstep : (extractAll fs0 destination files).1.node p = fs0.node p
    · rw [← hstep] at hp
      exact writeManifest_within _ destination manifest p hp
    · exact hloop hstep

theorem empty_wf : Fs.empty.WF := by
  intro p hp
  exact absurd rfl hp

/-- Witness of the amended C3: the names of `harmlessArchive` hold `..` elements
but stay within `out`; extracting it creates `out/lib`, which lies beneath
`out`. -/
theorem extraction_stays_within_destination_witness :
    (∀ f ∈ harmlessArchive, f.IsDir = false →
      FPath.within (Path.Clean "out") (Path.Join "out" f.Name)) ∧
    (Unzip Fs.empty "app.zip" (ZipSource.archive harmlessArchive) "out" "new").1.node
        ⟨false, ["lib", "out"]⟩
      ≠ (Fs.empty.set ⟨false, ["out"]⟩ (Node.dir 0o755)).node ⟨false, ["lib", "out"]⟩ ∧
    FPath.within (Path.Clean "out") ⟨false, ["lib", "out"]⟩ :=
  ⟨by decide, by decide,
   extraction_stays_within_destination Fs.empty (Fs.empty.set ⟨false, ["out"]⟩ (Node.dir 0o755))
     "app.zip" "out" "new" harmlessArchive empty_wf rfl (by decide) ⟨false, ["lib", "out"]⟩
     (by decide)⟩

/-- C3 as stated fails: an entry named `../evil` is neither rejected nor
sanitized. `Unzip` into `dest` on the empty filesystem returns nil and has
created the file `evil` next to `dest`, a path that is not within `dest`; into
the working directory `.` it creates `../evil`, which is not within `.`. -/
theorem zip_slip_counterexample :
    (Unzip Fs.empty "app.zip" (ZipSource.archive slipArchive) "dest" "").2 = none ∧
    Fs.empty.node (Path.Join "dest" "../evil") = none ∧
    (Unzip Fs.empty "app.zip" (ZipSource.archive slipArchive) "dest" "").1.node
        (Path.Join "dest" "../evil") = some (Node.file 0o644 "E") ∧
    Path.Join "dest" "../evil" = ⟨false, ["evil"]⟩ ∧
    ¬ FPath.within (Path.Clean "dest") (Path.Join "dest" "../evil") ∧
    (Unzip Fs.empty "app.zip" (ZipSource.archive slipArchive) "." "").2 = none ∧
    (Unzip Fs.empty "app.zip" (ZipSource.archive slipArchive) "." "").1.node
        ⟨false, ["evil", ".."]⟩ = some (Node.file 0o644 "E") ∧
    ¬ FPath.within (Path.Clean ".") ⟨false, ["evil", ".."]⟩ := by
  decide

/-! ## The expectations of bluegreen_test.go -/

/-- The model against the tests of bluegreen_test.go, whatever `Exists` reports
on the mock pushers (`reported`; the tests set nothing for it and the mock is
not among the sources). The model returns what the tests expect: the factory
error as it is; `LoginError` when the first login fails; nil on one, two and
four foundations when nothing fails; `FinishPushError` when the first
`FinishPush` fails; `PushError` when the second push fails; `PushError` with
both errors when both pushes fail. For the test `when rollback fails`, which
expects `RollbackError{[push error], [rollback error]}`, the model returns that
error exactly when `Exists` reports the application on the mock pushers; when
it reports false the first-deploy policy of the specification gives
`PushError{[push error]}`. -/
theorem bluegreen_test_expectations (reported : Bool) :
    (BlueGreen.Push
        (mockFactory [⟨none, reported, none, none, none⟩, ⟨none, reported, none, none, none⟩]
          [some "push creator failed"]) testEnvironment "appPath" testInfo).1
      = some (DeployError.unwrapped "push creator failed") ∧
    (BlueGreen.Push
        (mockFactory [⟨some "loginOutput", reported, none, none, none⟩,
          ⟨none, reported, none, none, none⟩] [none, none]) testEnvironment "appPath"
        testInfo).1 = some (DeployError.LoginError ["loginOutput"]) ∧
    BlueGreen.Push (mockFactory [⟨none, reported, none, none, none⟩] [none])
        ⟨"env", ["foundationURL"]⟩ "appPath" testInfo
      = (none, [Call.CreatePusher 0 "foundationURL", Call.Login 0 "foundationURL" testInfo,
          Call.Exists 0 "appName-test", Call.Push 0 "appPath" testInfo,
          Call.FinishPush 0 testInfo]) ∧
    (BlueGreen.Push
        (mockFactory [⟨none, reported, none, none, none⟩, ⟨none, reported, none, none, none⟩]
          [none, none]) testEnvironment "appPath" testInfo).1 = none ∧
    (BlueGreen.Push
        (mockFactory [⟨none, reported, none, none, none⟩, ⟨none, reported, none, none, none⟩,
          ⟨none, reported, none, none, none⟩, ⟨none, reported, none, none, none⟩,
          ⟨none, reported, none, none, none⟩, ⟨none, reported, none, none, none⟩]
          [none, none, none, none, none, none]) ⟨"env", ["f1", "f2", "f3", "f4"]⟩ "appPath"
        testInfo).1 = none ∧
    (BlueGreen.Push
        (mockFactory [⟨none, reported, none, none, some "finish push error"⟩,
          ⟨none, reported, none, none, none⟩] [none, none]) testEnvironment "appPath"
        testInfo).1 = some (DeployError.FinishPushError ["finish push error"]) ∧
    (BlueGreen.Push
        (mockFactory [⟨none, reported, none, none, none⟩,
          ⟨none, reported, some "push error", none, none⟩] [none, none])
        testEnvironment "appPath" testInfo).1
      = some (DeployError.PushError ["push error"]) ∧
    (BlueGreen.Push
        (mockFactory [⟨none, reported, some "push error", none, none⟩,
          ⟨none, reported, some "push error", none, none⟩] [none, none])
        testEnvironment "appPath" testInfo).1
      = some (DeployError.PushError ["push error", "push error"]) ∧
    ((BlueGreen.Push (mockFactory (rollbackFailsPushers reported) [none, none])
        testEnvironment "appPath" testInfo).1
      = some (DeployError.RollbackError ["push error"] ["rollback error"])
      ↔ reported = true) ∧
    ((BlueGreen.Push (mockFactory (rollbackFailsPushers reported) [none, none])
        testEnvironment "appPath" testInfo).1
      = some (DeployError.PushError ["push error"])
      ↔ reported = false) := by
  cases reported <;> decide

end Deployadactyl
